import Mathlib

/-!
Verification of the PICAM calculation engine (backend/app/core and the ROI
ledger utilities) against its specification.

The Python sources are shallowly embedded: Python floats become exact
rationals (`ℚ`), event counts become `ℕ`, fallible calculators return
`Option`.  Quantities that are irrational by nature (standard deviations,
Shannon entropy) live in `ℝ`.  External library calls that the claims do not
depend on (the scipy Student-t quantile inside the confidence interval, the
SHA-256 digest) are modelled as explicit function parameters, so every
theorem quantifies over them.
-/

namespace Picam

/-- Arithmetic mean of a list of rationals, `np.mean` (division by zero yields
the Lean junk value `0`, which is only reachable outside the guarded paths). -/
def mean (l : List ℚ) : ℚ := l.sum / l.length

/-- Python `int(x)` on a float: truncation toward zero. -/
def ratTrunc (q : ℚ) : ℤ := if q < 0 then -(⌊-q⌋) else ⌊q⌋

/-- Round a rational to the nearest integer, ties to the nearest even integer,
which is the rounding used by Python `round` / numpy. -/
def roundHE (q : ℚ) : ℤ :=
  if q - ⌊q⌋ = 1 / 2 then (if Even ⌊q⌋ then ⌊q⌋ else ⌊q⌋ + 1) else round q

/-- Python `round(q, n)`: round to `n` decimal digits, ties to even. -/
def pyRound (q : ℚ) (n : ℕ) : ℚ := (roundHE (q * 10 ^ n) : ℚ) / 10 ^ n

/-- Location types from `app/models/domain.py` (`LocationType`). -/
inductive LocationType where
  | front_desk | restaurant | lobby | housekeeping | concierge | valet | spa | gym
deriving DecidableEq, Repr

/-- `FlowMeasurement` from `app/models/domain.py`: a single per-interval
observation.  Counts are natural numbers (the spec treats negative counts as
contract violations), durations and the observation period are rationals,
the timestamp is an abstract integer instant. -/
structure FlowMeasurement where
  timestamp : ℤ
  location_id : String
  location_type : LocationType
  arrival_count : ℕ := 0
  departure_count : ℕ := 0
  queue_length : ℕ := 0
  in_service_count : ℕ := 0
  avg_service_duration : Option ℚ := none
  avg_wait_time : Option ℚ := none
  observation_period_seconds : ℚ := 300
deriving DecidableEq, Repr

/-- `FlowMeasurement.arrival_rate`: arrivals per second, `0.0` on a
non-positive observation period. -/
def FlowMeasurement.arrival_rate (m : FlowMeasurement) : ℚ :=
  if m.observation_period_seconds ≤ 0 then 0
  else (m.arrival_count : ℚ) / m.observation_period_seconds

/-- `FlowMeasurement.departure_rate`: departures per second, `0.0` on a
non-positive observation period. -/
def FlowMeasurement.departure_rate (m : FlowMeasurement) : ℚ :=
  if m.observation_period_seconds ≤ 0 then 0
  else (m.departure_count : ℚ) / m.observation_period_seconds

/-- `FlowMeasurement.total_in_system`: queue plus in-service. -/
def FlowMeasurement.total_in_system (m : FlowMeasurement) : ℕ :=
  m.queue_length + m.in_service_count

/-- `CapacityConstraint` from `app/models/domain.py`. -/
structure CapacityConstraint where
  location_type : LocationType
  max_servers : ℕ
  max_queue_capacity : ℕ
  target_utilization : ℚ := 85 / 100
deriving DecidableEq, Repr

/-- The `__post_init__` assertions of `CapacityConstraint`. -/
def CapacityConstraint.Valid (c : CapacityConstraint) : Prop :=
  0 < c.max_servers ∧ 0 < c.max_queue_capacity ∧
    0 < c.target_utilization ∧ c.target_utilization ≤ 1

instance (c : CapacityConstraint) : Decidable c.Valid := by
  unfold CapacityConstraint.Valid; infer_instance

/-- `LittlesLawResult` from `app/models/domain.py`. -/
structure LittlesLawResult where
  timestamp : ℤ
  location_id : String
  L : ℚ
  lambda_rate : ℚ
  W : ℚ
  L_q : ℚ
  W_q : ℚ
  rho : ℚ
  data_points_used : ℕ
  confidence_interval_lower : ℚ
  confidence_interval_upper : ℚ
deriving DecidableEq, Repr

/-- `LittlesLawResult.is_valid`: at least 10 data points (a hard-coded 10 in
the source, independent of the calculator configuration) and a positive
arrival rate. -/
def LittlesLawResult.is_valid (r : LittlesLawResult) : Bool :=
  decide (10 ≤ r.data_points_used) && decide (0 < r.lambda_rate)

/-- `LittlesLawResult.is_unstable`: utilization at least one. -/
def LittlesLawResult.is_unstable (r : LittlesLawResult) : Bool :=
  decide (1 ≤ r.rho)

/-- Configuration fields of the `LittlesLawCalculator` dataclass. -/
structure LittlesLawCalculator where
  confidence_level : ℚ := 95 / 100
  min_data_points : ℕ := 10

/-- `LittlesLawCalculator._calculate_confidence_interval`.  For fewer than two
samples the interval degenerates to the point estimate; otherwise the margin
is `t_value * standard_error`, an irrational quantity produced by scipy
(`stats.t.ppf`, `stats.sem`), which is modelled by the abstract `margin`
parameter — no claim depends on its value. -/
def confidenceInterval (margin : List ℚ → ℚ) (data : List ℚ) : ℚ × ℚ :=
  let m := mean data
  if data.length < 2 then (m, m) else (m - margin data, m + margin data)

/-- `LittlesLawCalculator.calculate` from `app/core/littles_law.py`. -/
def LittlesLawCalculator.calculate (self : LittlesLawCalculator)
    (margin : List ℚ → ℚ) (measurements : List FlowMeasurement)
    (capacity : Option CapacityConstraint) : Option LittlesLawResult :=
  if measurements.length < self.min_data_points then none
  else
    let arrival_rates := measurements.map FlowMeasurement.arrival_rate
    let queue_lengths := measurements.map (fun m => (m.queue_length : ℚ))
    let total_in_system :=
      measurements.map (fun m => ((m.queue_length : ℚ) + (m.in_service_count : ℚ)))
    let lambda_rate := mean arrival_rates
    if lambda_rate ≤ 0 then none
    else
      let L := mean total_in_system
      let L_q := mean queue_lengths
      let W := if 0 < lambda_rate then L / lambda_rate else 0
      let W_q := if 0 < lambda_rate then L_q / lambda_rate else 0
      let mu_rate := mean (measurements.map FlowMeasurement.departure_rate)
      let num_servers : ℕ := match capacity with
        | some c => c.max_servers
        | none => 1
      let rho := if 0 < mu_rate then lambda_rate / ((num_servers : ℚ) * mu_rate) else 1
      let ci := confidenceInterval margin total_in_system
      some {
        timestamp := ((measurements.getLast?).map (·.timestamp)).getD 0
        location_id := ((measurements.head?).map (·.location_id)).getD ""
        L := L
        lambda_rate := lambda_rate
        W := W
        L_q := L_q
        W_q := W_q
        rho := min rho 2
        data_points_used := measurements.length
        confidence_interval_lower := ci.1
        confidence_interval_upper := ci.2 }

/-- Mean arrival rate of a batch, as the spec describes it:
`lambda_rate = mean(arrival_rate)`. -/
def meanArrivalRate (ms : List FlowMeasurement) : ℚ :=
  mean (ms.map FlowMeasurement.arrival_rate)

/-- Mean departure rate of a batch: `mu_rate = mean(departure_rate)`. -/
def meanDepartureRate (ms : List FlowMeasurement) : ℚ :=
  mean (ms.map FlowMeasurement.departure_rate)

/-- Number of servers used by the calculator: `capacity.max_servers` when a
capacity constraint is supplied, otherwise 1. -/
def numServers (capacity : Option CapacityConstraint) : ℕ :=
  match capacity with
  | some c => c.max_servers
  | none => 1

/-- Modelled from the spec: the unclamped utilization
`rho = lambda_rate/(servers*mu_rate)` when `mu_rate > 0`, else `1.0`
(assumed saturation).  This is the spec-side value that claim C3 asserts is
stored in the result; the source stores `min(rho, 2.0)` instead. -/
def unclampedRho (ms : List FlowMeasurement) (capacity : Option CapacityConstraint) : ℚ :=
  if 0 < meanDepartureRate ms then
    meanArrivalRate ms / ((numServers capacity : ℚ) * meanDepartureRate ms)
  else 1

/-- The default-configured calculator (`confidence_level=0.95`,
`min_data_points=10`). -/
def defaultLL : LittlesLawCalculator := {}

/-- A confidence-interval margin of zero, used for concrete evaluations. -/
def zeroMargin : List ℚ → ℚ := fun _ => 0

/-! ### Multi-server (Erlang C) queue calculator, `app/core/littles_law.py` -/

/-- The metrics dictionary returned by
`MultiServerQueueCalculator.calculate_metrics` in the stable case.  `rho`,
`p_wait`, `L` and `L_q` are rounded to 4 decimal places and `W`, `W_q` to 2,
exactly as the source rounds them with `round(...)`. -/
structure MMcMetrics where
  servers : ℕ
  rho : ℚ
  p_wait : ℚ
  L : ℚ
  L_q : ℚ
  W : ℚ
  W_q : ℚ
  service_rate : ℚ
  arrival_rate : ℚ
deriving DecidableEq, Repr

/-- Result of `calculate_metrics`: either the unstable dictionary (which
carries the unrounded `rho`) or the stable metrics. -/
inductive MMcResult where
  | unstable (rho : ℚ)
  | stable (m : MMcMetrics)
deriving DecidableEq, Repr

/-- `MultiServerQueueCalculator._calculate_p0`: probability of an empty
system.  The sum over `range(c)` is kept as a literal list sum, mirroring the
Python generator expression. -/
def calculateP0 (lambda_rate mu : ℚ) (c : ℕ) : ℚ :=
  let rho := lambda_rate / ((c : ℚ) * mu)
  let a := lambda_rate / mu
  let sum_term := ((List.range c).map (fun n => a ^ n / (n.factorial : ℚ))).sum
  let last_term := (a ^ c / (c.factorial : ℚ)) * (1 / (1 - rho))
  1 / (sum_term + last_term)

/-- `MultiServerQueueCalculator._calculate_erlang_c`: probability of
waiting. -/
def calculateErlangC (lambda_rate mu : ℚ) (c : ℕ) (p0 : ℚ) : ℚ :=
  let a := lambda_rate / mu
  let rho := lambda_rate / ((c : ℚ) * mu)
  (a ^ c / (c.factorial : ℚ)) * (1 / (1 - rho)) * p0

/-- `MultiServerQueueCalculator.calculate_metrics` for `c` servers with
per-server service rate `mu`. -/
def calculateMetrics (c : ℕ) (mu : ℚ) (arrival_rate : ℚ) : MMcResult :=
  let lambda_rate := arrival_rate
  let rho := lambda_rate / ((c : ℚ) * mu)
  if 1 ≤ rho then .unstable rho
  else
    let p0 := calculateP0 lambda_rate mu c
    let erlang_c := calculateErlangC lambda_rate mu c p0
    let L_q := erlang_c * rho / (1 - rho)
    let W_q := if 0 < lambda_rate then L_q / lambda_rate else 0
    let W := W_q + 1 / mu
    let L := lambda_rate * W
    .stable {
      servers := c
      rho := pyRound rho 4
      p_wait := pyRound erlang_c 4
      L := pyRound L 4
      L_q := pyRound L_q 4
      W := pyRound W 2
      W_q := pyRound W_q 2
      service_rate := mu
      arrival_rate := lambda_rate }

/-- The `W_q` field of a `calculate_metrics` result, when stable. -/
def MMcResult.wq : MMcResult → Option ℚ
  | .stable m => some m.W_q
  | .unstable _ => none

/-- `MultiServerQueueCalculator.find_optimal_servers`: the first server count
in `1..max_servers` whose stable `W_q` meets the target, with that wait. -/
def findOptimalServers (mu : ℚ) (arrival_rate target_wait_time : ℚ)
    (max_servers : ℕ) : Option (ℕ × ℚ) :=
  (List.range' 1 max_servers).findSome? (fun c =>
    match calculateMetrics c mu arrival_rate with
    | .stable m => if m.W_q ≤ target_wait_time then some (c, m.W_q) else none
    | .unstable _ => none)

/-- Modelled from the spec: offered load `a = λ/μ`. -/
def specA (lam mu : ℚ) : ℚ := lam / mu

/-- Modelled from the spec: `rho = λ/(cμ)`. -/
def specRho (lam mu : ℚ) (c : ℕ) : ℚ := lam / ((c : ℚ) * mu)

/-- Modelled from the spec:
`P0 = 1 / (sum over n < c of a^n/n! + (a^c/c!) * 1/(1-rho))`. -/
def specP0 (lam mu : ℚ) (c : ℕ) : ℚ :=
  1 / (((List.range c).map (fun n => specA lam mu ^ n / (n.factorial : ℚ))).sum +
    (specA lam mu ^ c / (c.factorial : ℚ)) * (1 / (1 - specRho lam mu c)))

/-- Modelled from the spec: `Erlang_C = (a^c/c!) * (1/(1-rho)) * P0`. -/
def specErlangC (lam mu : ℚ) (c : ℕ) : ℚ :=
  (specA lam mu ^ c / (c.factorial : ℚ)) * (1 / (1 - specRho lam mu c)) * specP0 lam mu c

/-- Modelled from the spec: `L_q = Erlang_C * rho / (1 - rho)`. -/
def specLq (lam mu : ℚ) (c : ℕ) : ℚ :=
  specErlangC lam mu c * specRho lam mu c / (1 - specRho lam mu c)

/-- Modelled from the spec: `W_q = L_q / λ`. -/
def specWq (lam mu : ℚ) (c : ℕ) : ℚ := specLq lam mu c / lam

/-- Modelled from the spec: `W = W_q + 1/μ`. -/
def specW (lam mu : ℚ) (c : ℕ) : ℚ := specWq lam mu c + 1 / mu

/-- Modelled from the spec: `L = λW`. -/
def specL (lam mu : ℚ) (c : ℕ) : ℚ := lam * specW lam mu c

/-- The Erlang partial sum over `n < c` of `a^n/n!` with `a = λ/μ` (the
`sum_term` of `_calculate_p0`). -/
def erlangSum (lam mu : ℚ) (c : ℕ) : ℚ :=
  ((List.range c).map (fun n => (lam / mu) ^ n / (n.factorial : ℚ))).sum

/-! ### Entropy calculator, `app/core/entropy_calculator.py` -/

/-- Sample variance with `ddof=1` (the square of `np.std(data, ddof=1)`). -/
def sampleVar (data : List ℚ) : ℚ :=
  ((data.map (fun x => (x - mean data) ^ 2)).sum) / ((data.length : ℚ) - 1)

/-- `EntropyCalculator._calculate_cv`: coefficient of variation
`std/mean`, `0` for fewer than two samples or a non-positive mean.  The
sample standard deviation is the real square root of the rational sample
variance. -/
noncomputable def sampleCv (data : List ℚ) : ℝ :=
  if data.length < 2 then 0
  else if mean data ≤ 0 then 0
  else Real.sqrt ((sampleVar data : ℚ) : ℝ) / ((mean data : ℚ) : ℝ)

/-- Minimum of a list of rationals (the histogram range start). -/
def listMin : List ℚ → ℚ
  | [] => 0
  | x :: xs => xs.foldl min x

/-- Maximum of a list of rationals (the histogram range end). -/
def listMax : List ℚ → ℚ
  | [] => 0
  | x :: xs => xs.foldl max x

/-- Left edge of histogram bin `j`: with bin width `w = (hi-lo)/k` this is
numpy's edge `lo + (hi-lo)*j/k`. -/
def binLo (lo w : ℚ) (j : ℕ) : ℚ := lo + w * j

/-- Membership of `x` in histogram bin `j` out of `k`: numpy half-open bins,
with the last bin closed on the right. -/
def inBin (lo w : ℚ) (k j : ℕ) (x : ℚ) : Bool :=
  decide (binLo lo w j ≤ x) &&
    (if j + 1 = k then decide (x ≤ binLo lo w k) else decide (x < binLo lo w (j + 1)))

/-- Histogram bin counts for `np.histogram(data, bins=k)` over the range
`[lo, lo + k*w]`. -/
def histCounts (data : List ℚ) (k : ℕ) (lo w : ℚ) : List ℕ :=
  (List.range k).map (fun j => data.countP (fun x => inBin lo w k j x))

/-- `EntropyCalculator._calculate_entropy_score`: normalized Shannon entropy
of the binned arrival distribution.  Follows numpy: with a degenerate range
(`min = max`) the range expands to `(min - 0.5, max + 0.5)`; `density=True`
divides counts by `n * bin_width`; zero bins are dropped; the remaining
densities are renormalized; the entropy is divided by `log2(num_bins)`. -/
noncomputable def entropyScore (data : List ℚ) : ℝ :=
  if data.length < 2 then 0
  else
    let num_bins := min 10 (data.length / 2)
    if num_bins < 2 then 0
    else
      let mn := listMin data
      let mx := listMax data
      let lo := if mn = mx then mn - 1 / 2 else mn
      let hi := if mn = mx then mx + 1 / 2 else mx
      let w := (hi - lo) / (num_bins : ℚ)
      let dens := (histCounts data num_bins lo w).map
        (fun cnt : ℕ => (cnt : ℚ) / ((data.length : ℚ) * w))
      let pos := dens.filter (fun d => decide (0 < d))
      let ps := pos.map (fun d => d / pos.sum)
      let entropy : ℝ := -((ps.map (fun p => ((p : ℚ) : ℝ) * Real.logb 2 ((p : ℚ) : ℝ))).sum)
      let max_entropy : ℝ := Real.logb 2 ((num_bins : ℕ) : ℝ)
      if max_entropy ≤ 0 then 0 else entropy / max_entropy

/-- `EntropyMeasurement` from `app/models/domain.py`; the variability fields
are reals since standard deviations and entropies are irrational. -/
structure EntropyMeasurement where
  timestamp : ℤ
  location_id : String
  arrival_cv : ℝ
  service_cv : ℝ
  entropy_score : ℝ
  variance_impact_multiplier : ℝ

/-- Configuration fields of the `EntropyCalculator` dataclass. -/
structure EntropyCalculator where
  min_data_points : ℕ := 10

/-- `EntropyCalculator.calculate_entropy` from
`app/core/entropy_calculator.py`. -/
noncomputable def EntropyCalculator.calculate_entropy (self : EntropyCalculator)
    (measurements : List FlowMeasurement) (location_id : String) :
    Option EntropyMeasurement :=
  if measurements.length < self.min_data_points then none
  else
    let arrivals : List ℚ := measurements.map (fun m => (m.arrival_count : ℚ))
    let service_times : List ℚ := measurements.filterMap (·.avg_service_duration)
    let arrival_cv := sampleCv arrivals
    let service_cv : ℝ :=
      if self.min_data_points ≤ service_times.length then sampleCv service_times
      else (1 / 2 : ℝ)
    let entropy_score := entropyScore arrivals
    let variance_impact : ℝ := (arrival_cv ^ 2 + service_cv ^ 2) / 2
    some {
      timestamp := ((measurements.getLast?).map (·.timestamp)).getD 0
      location_id := location_id
      arrival_cv := arrival_cv
      service_cv := service_cv
      entropy_score := entropy_score
      variance_impact_multiplier := max 1 (1 + variance_impact) }

/-! ### Loss calculator, `app/core/loss_calculator.py` -/

/-- `FinancialParameters` with its source defaults. -/
structure FinancialParameters where
  avg_revenue_per_customer : ℚ := 150
  customer_lifetime_value : ℚ := 500
  customer_time_value_per_minute : ℚ := 2
  acceptable_wait_minutes : ℚ := 5
  labor_cost_per_hour : ℚ := 25
  overtime_multiplier : ℚ := 3 / 2
  walkaway_threshold_minutes : ℚ := 15
  walkaway_probability_per_minute : ℚ := 1 / 50
  walkaway_loss_multiplier : ℚ := 3
  conservative_factor : ℚ := 7 / 10
deriving DecidableEq, Repr

/-- Sign conditions on the financial parameters under which the loss
components are non-negative (all source defaults satisfy them). -/
def FinancialParameters.Nonneg (P : FinancialParameters) : Prop :=
  0 ≤ P.avg_revenue_per_customer ∧ 0 ≤ P.customer_lifetime_value ∧
    0 ≤ P.customer_time_value_per_minute ∧ 0 ≤ P.acceptable_wait_minutes ∧
    0 ≤ P.labor_cost_per_hour ∧ 1 ≤ P.overtime_multiplier ∧
    0 ≤ P.walkaway_threshold_minutes ∧ 0 ≤ P.walkaway_probability_per_minute ∧
    0 ≤ P.conservative_factor

instance (P : FinancialParameters) : Decidable P.Nonneg := by
  unfold FinancialParameters.Nonneg; infer_instance

/-- The default `FinancialParameters()`. -/
def defaultParams : FinancialParameters := {}

/-- Per-measurement excess-wait contribution of
`LossCalculator._calculate_wait_time_loss`: excess wait above the acceptable
threshold times the queue length.  The Python guard
`if m.avg_wait_time and m.avg_wait_time > threshold` tests float truthiness,
hence the `w ≠ 0` conjunct. -/
def waitTimeLossTerm (P : FinancialParameters) (m : FlowMeasurement) : ℚ :=
  match m.avg_wait_time with
  | some w =>
      if w ≠ 0 ∧ P.acceptable_wait_minutes * 60 < w then
        (w - P.acceptable_wait_minutes * 60) * (m.queue_length : ℚ)
      else 0
  | none => 0

/-- `LossCalculator._calculate_wait_time_loss`: summed excess wait, costed
per minute and scaled by the conservative factor.  Returns
`(total_excess_wait_seconds, cost)`. -/
def waitTimeLoss (P : FinancialParameters) (ms : List FlowMeasurement) : ℚ × ℚ :=
  let total := (ms.map (waitTimeLossTerm P)).sum
  (total, total / 60 * P.customer_time_value_per_minute * P.conservative_factor)

/-- Per-measurement lost customers of
`LossCalculator._calculate_throughput_loss`: arrivals exceeding the
`max_servers * period/60` throughput by more than 20%. -/
def throughputLossTerm (cap : CapacityConstraint) (m : FlowMeasurement) : ℤ :=
  let max_throughput := (cap.max_servers : ℚ) * m.observation_period_seconds / 60
  if max_throughput * (12 / 10) < (m.arrival_count : ℚ) then
    max 0 (ratTrunc ((m.arrival_count : ℚ) - max_throughput))
  else 0

/-- `LossCalculator._calculate_throughput_loss`.  Returns
`(lost_customers, lost_revenue)`. -/
def throughputLoss (P : FinancialParameters) (ms : List FlowMeasurement)
    (capacity : Option CapacityConstraint) : ℤ × ℚ :=
  match capacity with
  | none => (0, 0)
  | some cap =>
    let total := (ms.map (throughputLossTerm cap)).sum
    (total, (total : ℚ) * P.avg_revenue_per_customer * P.conservative_factor)

/-- Per-measurement expected walkaways of
`LossCalculator._calculate_walkaway_loss`: queue length times a probability
capped at 50%, truncated to an integer. -/
def walkawayLossTerm (P : FinancialParameters) (m : FlowMeasurement) : ℤ :=
  match m.avg_wait_time with
  | some w =>
      if w ≠ 0 ∧ P.walkaway_threshold_minutes * 60 < w then
        let excess_minutes := (w - P.walkaway_threshold_minutes * 60) / 60
        let walkaway_prob := min (1 / 2) (excess_minutes * P.walkaway_probability_per_minute)
        ratTrunc ((m.queue_length : ℚ) * walkaway_prob)
      else 0
  | none => 0

/-- `LossCalculator._calculate_walkaway_loss`: the cost adds 10% of the
lifetime value to the direct revenue.  Returns `(estimated_walkaways, cost)`. -/
def walkawayLoss (P : FinancialParameters) (ms : List FlowMeasurement) : ℤ × ℚ :=
  let walkaways : ℤ := (ms.map (walkawayLossTerm P)).sum
  let direct_loss := (walkaways : ℚ) * P.avg_revenue_per_customer
  let future_loss := (walkaways : ℚ) * P.customer_lifetime_value * (1 / 10)
  (walkaways, (direct_loss + future_loss) * P.conservative_factor)

/-- Per-measurement idle seconds of `LossCalculator._calculate_idle_time_loss`:
when actual utilization is below 70% of target, the utilization shortfall
times period times servers.  Unknown departure rates count as utilization
0.5. -/
def idleLossTerm (cap : CapacityConstraint) (m : FlowMeasurement) : ℚ :=
  let actual_util :=
    if 0 < m.departure_rate then
      m.arrival_rate / ((cap.max_servers : ℚ) * m.departure_rate)
    else 1 / 2
  if actual_util < cap.target_utilization * (7 / 10) then
    (cap.target_utilization - actual_util) * m.observation_period_seconds * (cap.max_servers : ℚ)
  else 0

/-- `LossCalculator._calculate_idle_time_loss`.  Returns
`(idle_seconds, cost)`. -/
def idleLoss (P : FinancialParameters) (ms : List FlowMeasurement)
    (capacity : Option CapacityConstraint) : ℚ × ℚ :=
  match capacity with
  | none => (0, 0)
  | some cap =>
    let total := (ms.map (idleLossTerm cap)).sum
    (total, total / 3600 * P.labor_cost_per_hour * P.conservative_factor)

/-- Per-measurement overtime seconds of
`LossCalculator._calculate_overtime_loss`: utilization beyond 100% times
period times servers. -/
def overtimeLossTerm (cap : CapacityConstraint) (m : FlowMeasurement) : ℚ :=
  if 0 < m.departure_rate then
    let utilization := m.arrival_rate / ((cap.max_servers : ℚ) * m.departure_rate)
    if 1 < utilization then
      (utilization - 1) * m.observation_period_seconds * (cap.max_servers : ℚ)
    else 0
  else 0

/-- `LossCalculator._calculate_overtime_loss`: overtime costed at the
overtime premium.  Returns `(overtime_hours, cost)`. -/
def overtimeLoss (P : FinancialParameters) (ms : List FlowMeasurement)
    (capacity : Option CapacityConstraint) : ℚ × ℚ :=
  match capacity with
  | none => (0, 0)
  | some cap =>
    let total := (ms.map (overtimeLossTerm cap)).sum
    let overtime_hours := total / 3600
    (overtime_hours,
      overtime_hours * P.labor_cost_per_hour * (P.overtime_multiplier - 1) * P.conservative_factor)

/-- `FinancialLoss` from `app/models/domain.py`.  The wait-time fields are
real because the entropy multiplier that can scale them is real; the other
components stay rational. -/
structure FinancialLoss where
  timestamp : ℤ
  location_id : String
  calculation_date : ℤ
  total_wait_time_seconds : ℝ
  wait_time_cost : ℝ
  lost_throughput_count : ℤ
  lost_throughput_revenue : ℚ
  estimated_walkaways : ℤ
  walkaway_cost : ℚ
  idle_time_seconds : ℚ
  idle_time_cost : ℚ
  overtime_hours : ℚ
  overtime_cost : ℚ

/-- `FinancialLoss.total_loss`: the sum of the five cost components. -/
noncomputable def FinancialLoss.total_loss (l : FinancialLoss) : ℝ :=
  l.wait_time_cost + (l.lost_throughput_revenue : ℝ) + (l.walkaway_cost : ℝ) +
    (l.idle_time_cost : ℝ) + (l.overtime_cost : ℝ)

/-- `LossCalculator._empty_loss`. -/
def emptyLoss (now : ℤ) (calc_date : ℤ) : FinancialLoss :=
  { timestamp := now, location_id := "unknown", calculation_date := calc_date,
    total_wait_time_seconds := 0, wait_time_cost := 0,
    lost_throughput_count := 0, lost_throughput_revenue := 0,
    estimated_walkaways := 0, walkaway_cost := 0,
    idle_time_seconds := 0, idle_time_cost := 0,
    overtime_hours := 0, overtime_cost := 0 }

/-- `LossCalculator.calculate_total_loss` from `app/core/loss_calculator.py`.
`now` models the `now_utc()` clock read and `target_date` the optional
calculation date; `littles_result` is accepted but, as in the source, never
read.  When an entropy measurement with multiplier above 1 is supplied, both
components of the wait-time pair are scaled by the multiplier capped at 2. -/
noncomputable def calcTotalLoss (P : FinancialParameters) (now : ℤ)
    (measurements : List FlowMeasurement)
    (littles_result : Option LittlesLawResult)
    (entropy : Option EntropyMeasurement)
    (capacity : Option CapacityConstraint) (target_date : Option ℤ) : FinancialLoss :=
  match measurements with
  | [] => emptyLoss now (target_date.getD 0)
  | m0 :: rest =>
    let ms := m0 :: rest
    let calc_date := target_date.getD m0.timestamp
    let wait_time_loss := waitTimeLoss P ms
    let throughput_loss := throughputLoss P ms capacity
    let walkaway_loss := walkawayLoss P ms
    let idle_loss := idleLoss P ms capacity
    let overtime_loss := overtimeLoss P ms capacity
    let wait_scaled : ℝ × ℝ :=
      match entropy with
      | some e =>
          if 1 < e.variance_impact_multiplier then
            let entropy_factor := min e.variance_impact_multiplier 2
            (((wait_time_loss.1 : ℚ) : ℝ) * entropy_factor,
              ((wait_time_loss.2 : ℚ) : ℝ) * entropy_factor)
          else (((wait_time_loss.1 : ℚ) : ℝ), ((wait_time_loss.2 : ℚ) : ℝ))
      | none => (((wait_time_loss.1 : ℚ) : ℝ), ((wait_time_loss.2 : ℚ) : ℝ))
    { timestamp := now
      location_id := m0.location_id
      calculation_date := calc_date
      total_wait_time_seconds := wait_scaled.1
      wait_time_cost := wait_scaled.2
      lost_throughput_count := throughput_loss.1
      lost_throughput_revenue := throughput_loss.2
      estimated_walkaways := walkaway_loss.1
      walkaway_cost := walkaway_loss.2
      idle_time_seconds := idle_loss.1
      idle_time_cost := idle_loss.2
      overtime_hours := overtime_loss.1
      overtime_cost := overtime_loss.2 }

/-- The multiplier that `calculate_total_loss` applies to the wait-time pair:
`min(variance_impact_multiplier, 2)` when an entropy measurement with
multiplier above 1 is supplied, else 1. -/
noncomputable def waitFactor : Option EntropyMeasurement → ℝ
  | none => 1
  | some e =>
      if 1 < e.variance_impact_multiplier then min e.variance_impact_multiplier 2 else 1

/-! ### ROI ledger hash chain, `app/services/roi_tracker.py` and
`app/utils/hash_utils.py` -/

/-- The caller-supplied payload of a new ROI ledger entry
(`create_roi_entry` inputs). -/
structure ROIPayload where
  entry_id : String
  timestamp : String
  action_id : String
  before_loss : ℚ
  after_loss : ℚ
deriving DecidableEq, Repr

/-- The dictionary that `create_roi_entry` hashes: the payload fields plus
the previous entry hash. -/
structure EntryData where
  entry_id : String
  timestamp : String
  action_id : String
  before_loss : ℚ
  after_loss : ℚ
  previous_entry_hash : String
deriving DecidableEq, Repr

/-- A stored ROI ledger entry (the fields of `ROILogEntry` that the chain
logic touches). -/
structure ROIEntryRec where
  entry_id : String
  timestamp : String
  action_id : String
  before_loss : ℚ
  after_loss : ℚ
  entry_hash : String
  previous_entry_hash : String
  sequence_number : ℕ
deriving DecidableEq, Repr

/-- The hashed dictionary of a stored entry (used by `verify_single_entry`). -/
def entryData (e : ROIEntryRec) : EntryData :=
  ⟨e.entry_id, e.timestamp, e.action_id, e.before_loss, e.after_loss, e.previous_entry_hash⟩

/-- Replace the stored hash of an entry (tampering with the hash field). -/
def withHash (e : ROIEntryRec) (h : String) : ROIEntryRec :=
  { e with entry_hash := h }

/-- `ROITrackerService.create_roi_entry`, restricted to the chain logic: the
new entry points at the hash of the latest entry (or the `"genesis"`
sentinel), carries the next sequence number, and stores the digest `H` of its
hashed fields.  `H` abstracts `create_deterministic_hash` (a SHA-256 over a
canonical JSON serialization); every theorem quantifies over it. -/
def appendEntry (H : EntryData → String) (chain : List ROIEntryRec)
    (p : ROIPayload) : List ROIEntryRec :=
  let previous_hash := match chain.getLast? with
    | some prev => prev.entry_hash
    | none => "genesis"
  let sequence_number := match chain.getLast? with
    | some prev => prev.sequence_number + 1
    | none => 1
  let data : EntryData :=
    ⟨p.entry_id, p.timestamp, p.action_id, p.before_loss, p.after_loss, previous_hash⟩
  chain ++ [⟨p.entry_id, p.timestamp, p.action_id, p.before_loss, p.after_loss,
    H data, previous_hash, sequence_number⟩]

/-- Sequentially append a list of payloads onto an empty ledger. -/
def buildChain (H : EntryData → String) (ps : List ROIPayload) : List ROIEntryRec :=
  ps.foldl (appendEntry H) []

/-- `ROITrackerService.verify_chain_integrity` (the same walk as
`hash_utils.verify_chain`): every entry's stored `previous_entry_hash` must
equal the preceding entry's stored `entry_hash`; nothing is recomputed. -/
def verifyChainIntegrity : List ROIEntryRec → Bool
  | [] => true
  | [_] => true
  | a :: b :: rest =>
      (b.previous_entry_hash == a.entry_hash) && verifyChainIntegrity (b :: rest)

/-- `ROITrackerService.verify_single_entry`: recompute the digest of the
stored fields and compare with the stored `entry_hash`. -/
def verifySingleEntry (H : EntryData → String) (e : ROIEntryRec) : Bool :=
  H (entryData e) == e.entry_hash

/-! ### Concrete inputs used by counterexamples and witnesses -/

/-- The measurement of the spec scenario behind claim C1: 10 arrivals, 10
departures, queue 5, 2 in service, over a 300-second period. -/
def c1m : FlowMeasurement :=
  { timestamp := 0, location_id := "front_desk", location_type := .front_desk,
    arrival_count := 10, departure_count := 10, queue_length := 5,
    in_service_count := 2, observation_period_seconds := 300 }

/-- The batch of 20 such measurements. -/
def c1batch : List FlowMeasurement := List.replicate 20 c1m

/-- The result the calculator produces on `c1batch` (zero margin). -/
def c1result : LittlesLawResult :=
  { timestamp := 0, location_id := "front_desk", L := 7, lambda_rate := 1 / 30,
    W := 210, L_q := 5, W_q := 150, rho := 1, data_points_used := 20,
    confidence_interval_lower := 7, confidence_interval_upper := 7 }

/-- A batch whose raw utilization is 3: arrivals triple the departures. -/
def c3batch : List FlowMeasurement :=
  List.replicate 10
    { timestamp := 0, location_id := "front_desk", location_type := .front_desk,
      arrival_count := 30, departure_count := 10, queue_length := 0,
      in_service_count := 0, observation_period_seconds := 300 }

/-- A measurement with a negative observation period. -/
def c10m : FlowMeasurement :=
  { timestamp := 0, location_id := "lobby", location_type := .lobby,
    arrival_count := 4, departure_count := 3, queue_length := 2,
    in_service_count := 1, observation_period_seconds := -5 }

/-- The stable metrics of the M/M/1 queue with `mu = 1`, `lambda = 1/3`:
the exact closed-form values rounded at the boundary. -/
def c5metrics : MMcMetrics :=
  { servers := 1, rho := 3333 / 10000, p_wait := 3333 / 10000, L := 1 / 2,
    L_q := 1667 / 10000, W := 3 / 2, W_q := 1 / 2, service_rate := 1,
    arrival_rate := 1 / 3 }

/-- The capacity constraint of the C6 counterexample: one server,
default target utilization. -/
def cap6 : CapacityConstraint :=
  { location_type := .front_desk, max_servers := 1, max_queue_capacity := 50 }

/-- The measurement family of the C6 counterexample: a long 90000-second
period with 3028 departures and a variable arrival count. -/
def m6 (a : ℕ) : FlowMeasurement :=
  { timestamp := 0, location_id := "front_desk", location_type := .front_desk,
    arrival_count := a, departure_count := 3028, queue_length := 0,
    in_service_count := 0, observation_period_seconds := 90000 }

/-- A measurement with a recorded wait time, for the C6 witness. -/
def c6wm : FlowMeasurement :=
  { timestamp := 0, location_id := "front_desk", location_type := .front_desk,
    arrival_count := 10, departure_count := 10, queue_length := 5,
    in_service_count := 2, avg_wait_time := some 350,
    observation_period_seconds := 300 }

/-- A constant-arrival measurement for the entropy witness. -/
def c8m : FlowMeasurement :=
  { timestamp := 0, location_id := "lobby", location_type := .lobby,
    arrival_count := 4, departure_count := 4, queue_length := 1,
    in_service_count := 1, observation_period_seconds := 300 }

/-- Ten constant-arrival measurements. -/
def c8batch : List FlowMeasurement := List.replicate 10 c8m

/-- A concrete stand-in digest for the C2 counterexample (the chain walk
never inspects digests, so any function exhibits the behaviour). -/
def constHash : EntryData → String := fun _ => "h"

/-- First ledger payload of the C2 scenario. -/
def p20 : ROIPayload := ⟨"e0", "t0", "a0", 100, 40⟩

/-- Second ledger payload of the C2 scenario. -/
def p21 : ROIPayload := ⟨"e1", "t1", "a1", 50, 20⟩

/-- The first stored entry of `buildChain constHash [p20, p21]`. -/
def e20 : ROIEntryRec := ⟨"e0", "t0", "a0", 100, 40, "h", "genesis", 1⟩

/-- The second stored entry of `buildChain constHash [p20, p21]`. -/
def e21 : ROIEntryRec := ⟨"e1", "t1", "a1", 50, 20, "h", "h", 2⟩

/-- The first entry with its stored payload mutated (`before_loss` changed
from 100 to 999) and its hash fields untouched. -/
def e20mut : ROIEntryRec := ⟨"e0", "t0", "a0", 999, 40, "h", "genesis", 1⟩

/-- The result the calculator produces on `c3batch` (zero margin): the raw
utilization 3 is stored capped at 2. -/
def c3result : LittlesLawResult :=
  { timestamp := 0, location_id := "front_desk", L := 0, lambda_rate := 1 / 10,
    W := 0, L_q := 0, W_q := 0, rho := 2, data_points_used := 10,
    confidence_interval_lower := 0, confidence_interval_upper := 0 }

/-- The record that `calculate` returns on an accepted batch, written with
the guards resolved: `W = L/lambda`, `W_q = L_q/lambda`, and the stored
utilization `min(unclamped rho, 2)`. -/
def llResultNF (margin : List ℚ → ℚ) (ms : List FlowMeasurement)
    (capacity : Option CapacityConstraint) : LittlesLawResult :=
  { timestamp := ((ms.getLast?).map (·.timestamp)).getD 0
    location_id := ((ms.head?).map (·.location_id)).getD ""
    L := mean (ms.map fun m => ((m.queue_length : ℚ) + (m.in_service_count : ℚ)))
    lambda_rate := meanArrivalRate ms
    W := mean (ms.map fun m => ((m.queue_length : ℚ) + (m.in_service_count : ℚ))) /
      meanArrivalRate ms
    L_q := mean (ms.map fun m => (m.queue_length : ℚ))
    W_q := mean (ms.map fun m => (m.queue_length : ℚ)) / meanArrivalRate ms
    rho := min (unclampedRho ms capacity) 2
    data_points_used := ms.length
    confidence_interval_lower := (confidenceInterval margin
      (ms.map fun m => ((m.queue_length : ℚ) + (m.in_service_count : ℚ)))).1
    confidence_interval_upper := (confidenceInterval margin
      (ms.map fun m => ((m.queue_length : ℚ) + (m.in_service_count : ℚ)))).2 }

/-! ### Claims about the Little's Law calculator and the flow model -/

/-- Characterization of the accepted path of `calculate`: it returns `some r`
exactly when the batch reaches the minimum size and the mean arrival rate is
positive, and then `r` is the normal-form record. -/
theorem calculate_eq_some_iff (self : LittlesLawCalculator) (margin : List ℚ → ℚ)
    (ms : List FlowMeasurement) (capacity : Option CapacityConstraint)
    (r : LittlesLawResult) :
    self.calculate margin ms capacity = some r ↔
      self.min_data_points ≤ ms.length ∧ 0 < meanArrivalRate ms ∧
        r = llResultNF margin ms capacity := by
  have hme : meanArrivalRate ms = mean (ms.map FlowMeasurement.arrival_rate) := rfl
  constructor
  · intro h
    by_cases h1 : ms.length < self.min_data_points
    · simp [LittlesLawCalculator.calculate, h1] at h
    by_cases h2 : meanArrivalRate ms ≤ 0
    · rw [hme] at h2
      simp only [LittlesLawCalculator.calculate] at h
      rw [if_neg h1, if_pos h2] at h
      exact absurd h (by simp)
    have hl : 0 < meanArrivalRate ms := lt_of_not_le h2
    refine ⟨le_of_not_lt h1, hl, ?_⟩
    rw [hme] at h2 hl
    simp only [LittlesLawCalculator.calculate] at h
    rw [if_neg h1, if_neg h2, Option.some.injEq] at h
    rw [← h]
    unfold llResultNF
    rw [hme]
    simp only [if_pos hl]
    rfl
  · rintro ⟨hlen, hl, rfl⟩
    rw [hme] at hl
    simp only [LittlesLawCalculator.calculate]
    rw [if_neg (not_lt.mpr hlen), if_neg (not_le.mpr hl), Option.some.injEq]
    unfold llResultNF
    rw [hme]
    simp only [if_pos hl]
    rfl

/-- C10: for every `FlowMeasurement` whose `observation_period_seconds` is
non-positive, the derived `arrival_rate` and `departure_rate` properties
return `0.0` instead of failing on a division by zero. -/
theorem C10_degenerate_period (m : FlowMeasurement)
    (h : m.observation_period_seconds ≤ 0) :
    m.arrival_rate = 0 ∧ m.departure_rate = 0 := by
  unfold FlowMeasurement.arrival_rate FlowMeasurement.departure_rate
  rw [if_pos h, if_pos h]
  exact ⟨rfl, rfl⟩

/-- Witness for C10 at a measurement with a negative observation period. -/
theorem C10_degenerate_period_witness :
    c10m.observation_period_seconds ≤ 0 ∧ (c10m.arrival_rate = 0 ∧ c10m.departure_rate = 0) :=
  ⟨by with_unfolding_all decide, C10_degenerate_period c10m (by with_unfolding_all decide)⟩

/-- C4: for every batch accepted by `LittlesLawCalculator.calculate`, the
returned result satisfies `L = lambda_rate * W` and `L_q = lambda_rate * W_q`
exactly, because `W` is defined as `L / lambda_rate` (and the accepted-batch
guards force `lambda_rate > 0`). -/
theorem C4_littles_closure (self : LittlesLawCalculator) (margin : List ℚ → ℚ)
    (ms : List FlowMeasurement) (capacity : Option CapacityConstraint)
    (r : LittlesLawResult) (h : self.calculate margin ms capacity = some r) :
    r.L = r.lambda_rate * r.W ∧ r.L_q = r.lambda_rate * r.W_q := by
  obtain ⟨hlen, hl, rfl⟩ := (calculate_eq_some_iff self margin ms capacity r).mp h
  unfold llResultNF
  simp only
  constructor
  · rw [mul_comm, div_mul_cancel₀ _ (ne_of_gt hl)]
  · rw [mul_comm, div_mul_cancel₀ _ (ne_of_gt hl)]

/-- Witness for C4 on the concrete 20-measurement batch. -/
theorem C4_littles_closure_witness :
    c1result.L = c1result.lambda_rate * c1result.W ∧
      c1result.L_q = c1result.lambda_rate * c1result.W_q :=
  C4_littles_closure defaultLL zeroMargin c1batch none c1result
    (by with_unfolding_all decide)

/-- C9: the two calculators signal missing results with `none` instead of
raising: `calculate` returns `none` exactly when the batch is below the
configured minimum size or the mean arrival rate is non-positive, and
`calculate_entropy` returns `none` exactly when the batch is below the
configured minimum size.  Both embeddings are total functions. -/
theorem C9_no_result_signal (self : LittlesLawCalculator) (margin : List ℚ → ℚ)
    (ms : List FlowMeasurement) (capacity : Option CapacityConstraint)
    (ec : EntropyCalculator) (loc : String) :
    (self.calculate margin ms capacity = none ↔
      ms.length < self.min_data_points ∨ meanArrivalRate ms ≤ 0) ∧
    (ec.calculate_entropy ms loc = none ↔ ms.length < ec.min_data_points) := by
  constructor
  · simp only [LittlesLawCalculator.calculate, meanArrivalRate]
    split_ifs with h1 h2
    · simp [h1]
    · simp [h2]
    · simp [h1, h2]
  · simp only [EntropyCalculator.calculate_entropy]
    split_ifs with h
    · simp [h]
    · simp [h]

/-- C1 counterexample: on the spec scenario batch (20 measurements,
`arrival_count = departure_count = 10`, queue 5, 2 in service, 300 s), the
calculator reports `is_unstable = true`, not `false` as the claim states:
with no capacity the utilization is `lambda/mu = 1`, and `is_unstable` is
`rho >= 1`. -/
theorem C1_counterexample :
    (defaultLL.calculate zeroMargin c1batch none).map (·.is_unstable) = some true := by
  with_unfolding_all decide

/-- C1 (amended): the scenario yields `lambda_rate = 1/30` (0.0333.. per
second), `L = 7`, `W = 210` seconds and `is_valid = true` as claimed, but
`is_unstable = true` (the stored utilization is exactly 1). -/
theorem C1_amended :
    defaultLL.calculate zeroMargin c1batch none = some c1result ∧
    c1result.lambda_rate = 1 / 30 ∧ c1result.L = 7 ∧ c1result.W = 210 ∧
    c1result.L_q = 5 ∧ c1result.W_q = 150 ∧
    c1result.is_valid = true ∧ c1result.is_unstable = true := by
  refine ⟨by with_unfolding_all decide, ?_, ?_, ?_, ?_, ?_, ?_, ?_⟩ <;>
    with_unfolding_all decide

/-- C3 counterexample: on a batch whose unclamped utilization is 3 (arrivals
triple the departures), the result stores `rho = 2`, not the unclamped
`lambda/(servers*mu) = 3`: the 2.0 cap is applied to the stored value, not
only to a display value. -/
theorem C3_counterexample :
    (defaultLL.calculate zeroMargin c3batch none).map (·.rho) = some 2 ∧
    unclampedRho c3batch none = 3 ∧ (2 : ℚ) ≠ 3 :=
  ⟨by with_unfolding_all decide, by with_unfolding_all decide, by norm_num⟩

/-- C3 (amended): the stored `rho` is `min(unclamped rho, 2.0)` where the
unclamped value is `lambda/(servers*mu)` for positive mean departure rate and
`1.0` otherwise; since the cap is at 2, `is_unstable` on the stored value
still agrees exactly with instability of the unclamped value. -/
theorem C3_amended (self : LittlesLawCalculator) (margin : List ℚ → ℚ)
    (ms : List FlowMeasurement) (capacity : Option CapacityConstraint)
    (r : LittlesLawResult) (h : self.calculate margin ms capacity = some r) :
    r.rho = min (unclampedRho ms capacity) 2 ∧
    (r.is_unstable = true ↔ 1 ≤ unclampedRho ms capacity) := by
  obtain ⟨hlen, hl, rfl⟩ := (calculate_eq_some_iff self margin ms capacity r).mp h
  unfold llResultNF
  refine ⟨rfl, ?_⟩
  simp only [LittlesLawResult.is_unstable, decide_eq_true_iff]
  constructor
  · intro hle
    exact (le_min_iff.mp hle).1
  · intro hle
    exact le_min_iff.mpr ⟨hle, by norm_num⟩

/-- Witness for C3 (amended) on the utilization-3 batch. -/
theorem C3_amended_witness :
    defaultLL.calculate zeroMargin c3batch none = some c3result ∧
    (c3result.rho = min (unclampedRho c3batch none) 2 ∧
      (c3result.is_unstable = true ↔ 1 ≤ unclampedRho c3batch none)) :=
  ⟨by with_unfolding_all decide,
    C3_amended defaultLL zeroMargin c3batch none c3result (by with_unfolding_all decide)⟩

/-! ### Rounding lemmas -/

theorem floor_le_roundHE (q : ℚ) : ⌊q⌋ ≤ roundHE q := by
  unfold roundHE
  split_ifs with h1 h2
  · exact le_refl _
  · exact le_of_lt (lt_add_one _)
  · rw [round_eq]
    exact Int.floor_mono (by linarith)

theorem roundHE_le_floor_add_one (q : ℚ) : roundHE q ≤ ⌊q⌋ + 1 := by
  unfold roundHE
  split_ifs with h1 h2
  · exact le_of_lt (lt_add_one _)
  · exact le_refl _
  · rw [round_eq]
    calc ⌊q + 1 / 2⌋ ≤ ⌊q + 1⌋ := Int.floor_mono (by linarith)
    _ = ⌊q⌋ + 1 := by rw [← Int.floor_add_one]

theorem roundHE_eq_floor_of_lt (q : ℚ) (h : q - ⌊q⌋ < 1 / 2) : roundHE q = ⌊q⌋ := by
  unfold roundHE
  rw [if_neg (by intro he; rw [he] at h; exact absurd h (lt_irrefl _)), round_eq]
  have h1 : (⌊q⌋ : ℚ) ≤ q + 1 / 2 := by linarith [Int.floor_le q]
  have h2 : q + 1 / 2 < (⌊q⌋ : ℚ) + 1 := by linarith
  exact Int.floor_eq_iff.mpr ⟨h1, h2⟩

theorem roundHE_eq_floor_add_one_of_gt (q : ℚ) (h : 1 / 2 < q - ⌊q⌋) :
    roundHE q = ⌊q⌋ + 1 := by
  unfold roundHE
  rw [if_neg (by intro he; rw [he] at h; exact absurd h (lt_irrefl _)), round_eq]
  have h1 : ((⌊q⌋ + 1 : ℤ) : ℚ) ≤ q + 1 / 2 := by push_cast; linarith
  have h2 : q + 1 / 2 < ((⌊q⌋ + 1 : ℤ) : ℚ) + 1 := by
    push_cast
    linarith [Int.lt_floor_add_one q]
  exact Int.floor_eq_iff.mpr ⟨h1, h2⟩

theorem roundHE_mono : Monotone roundHE := by
  intro x y hxy
  rcases lt_or_le ⌊x⌋ ⌊y⌋ with hf | hf
  · calc roundHE x ≤ ⌊x⌋ + 1 := roundHE_le_floor_add_one x
    _ ≤ ⌊y⌋ := hf
    _ ≤ roundHE y := floor_le_roundHE y
  · have hfe : ⌊x⌋ = ⌊y⌋ := le_antisymm (Int.floor_mono hxy) hf
    rcases lt_trichotomy (y - ⌊y⌋) (1 / 2) with hy | hy | hy
    · have hx : x - ⌊x⌋ < 1 / 2 := by
        rw [hfe]
        have : (⌊y⌋ : ℚ) ≤ ⌊y⌋ := le_refl _
        linarith
      rw [roundHE_eq_floor_of_lt x hx, roundHE_eq_floor_of_lt y hy, hfe]
    · rcases lt_trichotomy (x - ⌊x⌋) (1 / 2) with hx | hx | hx
      · rw [roundHE_eq_floor_of_lt x hx, hfe]
        exact floor_le_roundHE y
      · have hxe : x = y := by
          have := hfe
          have hx2 : x = (⌊x⌋ : ℚ) + 1 / 2 := by linarith
          have hy2 : y = (⌊y⌋ : ℚ) + 1 / 2 := by linarith
          rw [hx2, hy2, hfe]
        rw [hxe]
      · exfalso
        rw [hfe] at hx
        linarith
    · have : roundHE y = ⌊y⌋ + 1 := roundHE_eq_floor_add_one_of_gt y hy
      rw [this, ← hfe]
      exact roundHE_le_floor_add_one x
  
theorem pyRound_mono (n : ℕ) : Monotone (pyRound · n) := by
  intro x y hxy
  unfold pyRound
  have hp : (0 : ℚ) < 10 ^ n := by positivity
  rw [div_le_div_iff_of_pos_right hp]
  exact_mod_cast roundHE_mono (mul_le_mul_of_nonneg_right hxy (le_of_lt hp))

/-! ### Erlang C lemmas -/

theorem erlangSum_succ (lam mu : ℚ) (c : ℕ) :
    erlangSum lam mu (c + 1) = erlangSum lam mu c + (lam / mu) ^ c / (c.factorial : ℚ) := by
  unfold erlangSum
  rw [List.range_succ, List.map_append, List.sum_append]
  simp

theorem erlangSum_nonneg (lam mu : ℚ) (c : ℕ) (ha : 0 ≤ lam / mu) :
    0 ≤ erlangSum lam mu c := by
  unfold erlangSum
  apply List.sum_nonneg
  intro x hx
  obtain ⟨n, _, rfl⟩ := List.mem_map.mp hx
  positivity

theorem erlangSum_pos (lam mu : ℚ) (c : ℕ) (ha : 0 < lam / mu) (hc : 1 ≤ c) :
    0 < erlangSum lam mu c := by
  obtain ⟨k, rfl⟩ := Nat.exists_eq_add_of_le hc
  rw [add_comm, erlangSum_succ]
  have h1 : 0 ≤ erlangSum lam mu k := erlangSum_nonneg lam mu k (le_of_lt ha)
  have h2 : (0 : ℚ) < (lam / mu) ^ k / (k.factorial : ℚ) := by
    have hf : (0 : ℚ) < (k.factorial : ℚ) := by
      exact_mod_cast k.factorial_pos
    positivity
  linarith

/-- Abstract closed form: the nested-reciprocal raw wait expression of
`calculate_metrics` with offered load `a`, server count `C`, Erlang sum `S`
and top term `u` equals a single cleared fraction. -/
theorem wq_closed_abstract (lam a C S u : ℚ) (hlam : 0 < lam) (ha : 0 < a)
    (hC : a < C) (hS : 0 < S) (hu : 0 < u) :
    u * (1 / (1 - a / C)) * (1 / (S + u * (1 / (1 - a / C)))) * (a / C) / (1 - a / C) / lam =
      a * C * u / (lam * (C - a) * (S * (C - a) + C * u)) := by
  have hC0 : 0 < C := lt_trans ha hC
  have hd : 0 < C - a := by linarith
  have h1r : 0 < 1 - a / C := by
    rw [sub_pos, div_lt_one hC0]
    exact hC
  have hden : 0 < S + u * (1 / (1 - a / C)) := by positivity
  have hbig : 0 < S * (C - a) + C * u := by positivity
  rw [div_eq_div_iff (by positivity) (by positivity)]
  field_simp
  ring

/-- Closed form of the raw (unrounded) `W_q` computed by `calculate_metrics`
for a stable configuration, with all the nested reciprocals cleared. -/
theorem specWq_eq (lam mu : ℚ) (c : ℕ) (hlam : 0 < lam) (hmu : 0 < mu)
    (h : lam < (c : ℚ) * mu) :
    specWq lam mu c =
      (lam / mu) * (c : ℚ) * ((lam / mu) ^ c / (c.factorial : ℚ)) /
        (lam * ((c : ℚ) - lam / mu) *
          (erlangSum lam mu c * ((c : ℚ) - lam / mu) +
            (c : ℚ) * ((lam / mu) ^ c / (c.factorial : ℚ)))) := by
  have hcmu : 0 < (c : ℚ) * mu := lt_trans hlam h
  have hcq : 0 < (c : ℚ) := by
    rcases Nat.eq_zero_or_pos c with h0 | h0
    · rw [h0] at hcmu
      norm_num at hcmu
    · exact_mod_cast h0
  have hcn : 1 ≤ c := by exact_mod_cast hcq
  have ha : 0 < lam / mu := div_pos hlam hmu
  have hC : lam / mu < (c : ℚ) := by
    rw [div_lt_iff₀ hmu]
    linarith
  have hfac : (0 : ℚ) < (c.factorial : ℚ) := by exact_mod_cast c.factorial_pos
  have hu : 0 < (lam / mu) ^ c / (c.factorial : ℚ) := by positivity
  have hs : 0 < erlangSum lam mu c := erlangSum_pos lam mu c ha hcn
  have e4 : lam / ((c : ℚ) * mu) = lam / mu / (c : ℚ) := by
    rw [div_div, mul_comm]
  unfold specWq specLq specErlangC specP0 specRho specA
  rw [show ((List.range c).map (fun n => (lam / mu) ^ n / (n.factorial : ℚ))).sum =
    erlangSum lam mu c from rfl]
  rw [e4]
  exact wq_closed_abstract lam (lam / mu) (c : ℚ) (erlangSum lam mu c)
    ((lam / mu) ^ c / (c.factorial : ℚ)) hlam ha hC hs hu

/-- The pure algebraic step behind Erlang C monotonicity: with `c = a + d`
servers the raw wait denominator comparison reduces to this inequality. -/
theorem erlang_step_ineq (a d s u : ℚ) (ha : 0 < a) (hd : 0 < d)
    (hs : 0 < s) (hu : 0 < u) :
    a * d * (s * d + (a + d) * u) ≤ (a + d) * (d + 1) * ((s + u) * (d + 1) + a * u) := by
  nlinarith [mul_pos (mul_pos hs ha) hd, mul_pos hs ha,
    mul_pos (mul_pos (mul_pos hs hd) hd) hd, mul_pos (mul_pos hs hd) hd, mul_pos hs hd,
    mul_pos (mul_pos (mul_pos hu ha) hd) hd, mul_pos (mul_pos hu ha) hd, mul_pos hu ha,
    mul_pos (mul_pos hu ha) ha, mul_pos (mul_pos (mul_pos hu hd) hd) hd,
    mul_pos (mul_pos hu hd) hd, mul_pos hu hd]

/-- Abstract form of the one-server step: adding a server cannot increase the
raw `W_q`. -/
theorem wq_step_abstract (lam a C s u u' : ℚ) (hlam : 0 < lam) (ha : 0 < a)
    (hC : a < C) (hs : 0 < s) (hu : 0 < u) (hu' : u' * (C + 1) = u * a) :
    a * (C + 1) * u' / (lam * ((C + 1) - a) * ((s + u) * ((C + 1) - a) + (C + 1) * u')) ≤
      a * C * u / (lam * (C - a) * (s * (C - a) + C * u)) := by
  have hC0 : 0 < C := lt_trans ha hC
  have hC1 : (0 : ℚ) < C + 1 := by linarith
  have hd : 0 < C - a := by linarith
  have hd1 : 0 < (C + 1) - a := by linarith
  have hu'v : u' = u * a / (C + 1) := by
    field_simp at hu' ⊢
    linarith [hu']
  have hu'p : 0 < u' := by
    rw [hu'v]
    positivity
  have he1 : a * (C + 1) * u' = a ^ 2 * u := by
    rw [hu'v]
    field_simp
    ring
  have he2 : (C + 1) * u' = u * a := by
    rw [hu'v]
    field_simp
  rw [he1, he2]
  have hden1 : 0 < lam * ((C + 1) - a) * ((s + u) * ((C + 1) - a) + u * a) := by
    have : 0 < (s + u) * ((C + 1) - a) + u * a := by positivity
    positivity
  have hden2 : 0 < lam * (C - a) * (s * (C - a) + C * u) := by
    have : 0 < s * (C - a) + C * u := by positivity
    positivity
  rw [div_le_div_iff hden1 hden2]
  have key := erlang_step_ineq a (C - a) s u ha hd hs hu
  have hmp : (0 : ℚ) < a * u * lam := by positivity
  nlinarith [mul_le_mul_of_nonneg_left key (le_of_lt hmp)]

/-- Adding one server cannot increase the raw `W_q` of a stable system. -/
theorem specWq_succ_le (lam mu : ℚ) (c : ℕ) (hlam : 0 < lam) (hmu : 0 < mu)
    (h : lam < (c : ℚ) * mu) :
    specWq lam mu (c + 1) ≤ specWq lam mu c := by
  have h' : lam < ((c + 1 : ℕ) : ℚ) * mu := by
    push_cast
    nlinarith
  have hcmu : 0 < (c : ℚ) * mu := lt_trans hlam h
  have hcq : 0 < (c : ℚ) := by
    rcases Nat.eq_zero_or_pos c with h0 | h0
    · rw [h0] at hcmu
      norm_num at hcmu
    · exact_mod_cast h0
  have hcn : 1 ≤ c := by exact_mod_cast hcq
  have ha : 0 < lam / mu := div_pos hlam hmu
  have hfac : (0 : ℚ) < (c.factorial : ℚ) := by exact_mod_cast c.factorial_pos
  have hu : 0 < (lam / mu) ^ c / (c.factorial : ℚ) := by positivity
  have hs : 0 < erlangSum lam mu c := erlangSum_pos lam mu c ha hcn
  have hC : lam / mu < (c : ℚ) := by
    rw [div_lt_iff hmu]
    linarith
  rw [specWq_eq lam mu c hlam hmu h, specWq_eq lam mu (c + 1) hlam hmu h',
    erlangSum_succ]
  have hcast : ((c + 1 : ℕ) : ℚ) = (c : ℚ) + 1 := by push_cast; ring
  rw [hcast]
  have hu' : (lam / mu) ^ (c + 1) / ((c + 1).factorial : ℚ) * ((c : ℚ) + 1) =
      (lam / mu) ^ c / (c.factorial : ℚ) * (lam / mu) := by
    rw [pow_succ, Nat.factorial_succ]
    push_cast
    have hc1 : ((c : ℚ) + 1) ≠ 0 := by positivity
    field_simp
    ring
  exact wq_step_abstract lam (lam / mu) (c : ℚ) (erlangSum lam mu c)
    ((lam / mu) ^ c / (c.factorial : ℚ))
    ((lam / mu) ^ (c + 1) / ((c + 1).factorial : ℚ))
    hlam ha hC hs hu hu'

/-- Raw `W_q` is non-increasing in the server count on stable systems. -/
theorem specWq_anti (lam mu : ℚ) (hlam : 0 < lam) (hmu : 0 < mu) (c c' : ℕ)
    (hcc : c ≤ c') (h : lam < (c : ℚ) * mu) :
    specWq lam mu c' ≤ specWq lam mu c := by
  induction c', hcc using Nat.le_induction with
  | base => exact le_refl _
  | succ n hn ih =>
    have hn' : lam < (n : ℚ) * mu := by
      calc lam < (c : ℚ) * mu := h
      _ ≤ (n : ℚ) * mu := by
        apply mul_le_mul_of_nonneg_right _ (le_of_lt hmu)
        exact_mod_cast hn
    exact le_trans (specWq_succ_le lam mu n hlam hmu hn') ih

/-- Stable-path evaluation of `calculate_metrics`: the reported `W_q` field is
the boundary rounding of the raw closed-form wait. -/
theorem calculateMetrics_wq (c : ℕ) (mu lam : ℚ) (hlam : 0 < lam) (hmu : 0 < mu)
    (h : lam < (c : ℚ) * mu) :
    (calculateMetrics c mu lam).wq = some (pyRound (specWq lam mu c) 2) := by
  have hcmu : 0 < (c : ℚ) * mu := lt_trans hlam h
  have hrho : lam / ((c : ℚ) * mu) < 1 := (div_lt_one hcmu).mpr h
  simp only [calculateMetrics]
  rw [if_neg (not_le.mpr hrho), if_pos hlam]
  rfl

/-- C5 counterexample: at `c = 1`, `mu = 1`, `lambda = 1/3` the returned
metrics are the boundary-rounded values: the stored `rho` is `0.3333`, not
the closed-form `lambda/(c*mu) = 1/3`, so `calculate_metrics` does not return
the (exact) closed-form Erlang-C values. -/
theorem C5_counterexample :
    calculateMetrics 1 1 (1 / 3) = .stable c5metrics ∧
    c5metrics.rho = 3333 / 10000 ∧ specRho (1 / 3) 1 1 = 1 / 3 ∧
    (3333 / 10000 : ℚ) ≠ 1 / 3 := by
  refine ⟨?_, by norm_num [c5metrics], by norm_num [specRho], by norm_num⟩
  norm_num [calculateMetrics, calculateP0, calculateErlangC, pyRound, roundHE, round_eq,
    List.range_succ, c5metrics, Nat.factorial]

/-- C5 (amended): for `c >= 1`, `mu > 0`, `lambda > 0`, `calculate_metrics`
returns the unstable status exactly when `rho = lambda/(c*mu) >= 1` (with the
unrounded `rho`), and otherwise returns exactly the closed-form Erlang-C
values `P0`, `Erlang_C`, `L_q`, `W_q = L_q/lambda`, `W = W_q + 1/mu` and
`L = lambda*W` of the spec, rounded at the boundary: `rho`, the waiting
probability, `L` and `L_q` to four decimal places, `W` and `W_q` to two. -/
theorem C5_amended (lam mu : ℚ) (c : ℕ) (hlam : 0 < lam) (hmu : 0 < mu)
    (hc : 1 ≤ c) :
    (1 ≤ specRho lam mu c → calculateMetrics c mu lam = .unstable (specRho lam mu c)) ∧
    (specRho lam mu c < 1 → calculateMetrics c mu lam = .stable
      { servers := c
        rho := pyRound (specRho lam mu c) 4
        p_wait := pyRound (specErlangC lam mu c) 4
        L := pyRound (specL lam mu c) 4
        L_q := pyRound (specLq lam mu c) 4
        W := pyRound (specW lam mu c) 2
        W_q := pyRound (specWq lam mu c) 2
        service_rate := mu
        arrival_rate := lam }) := by
  constructor
  · intro h
    have h2 : 1 ≤ lam / ((c : ℚ) * mu) := h
    simp only [calculateMetrics]
    rw [if_pos h2]
    rfl
  · intro h
    have h2 : lam / ((c : ℚ) * mu) < 1 := h
    simp only [calculateMetrics]
    rw [if_neg (not_le.mpr h2), if_pos hlam]
    rfl

/-- Witness for C5 (amended) at the stable configuration `c = 1`, `mu = 1`,
`lambda = 1/3`. -/
theorem C5_amended_witness :
    (0 : ℚ) < 1 / 3 ∧ (0 : ℚ) < 1 ∧ specRho (1 / 3) 1 1 < 1 ∧
    calculateMetrics 1 1 (1 / 3) = .stable
      { servers := 1
        rho := pyRound (specRho (1 / 3) 1 1) 4
        p_wait := pyRound (specErlangC (1 / 3) 1 1) 4
        L := pyRound (specL (1 / 3) 1 1) 4
        L_q := pyRound (specLq (1 / 3) 1 1) 4
        W := pyRound (specW (1 / 3) 1 1) 2
        W_q := pyRound (specWq (1 / 3) 1 1) 2
        service_rate := 1
        arrival_rate := 1 / 3 } :=
  ⟨by norm_num, by norm_num, by norm_num [specRho],
    (C5_amended (1 / 3) 1 1 (by norm_num) (by norm_num) (le_refl 1)).2
      (by norm_num [specRho])⟩

/-- C7: for fixed positive `lambda` and `mu`, whenever `calculate_metrics`
reports a (stable) `W_q` for `c >= 1` servers and for `c' >= c` servers, the
reported `W_q` is non-increasing in the server count, so
`find_optimal_servers` scans a monotone sequence of wait times. -/
theorem C7_wq_monotone (lam mu : ℚ) (c c' : ℕ) (w w' : ℚ)
    (hlam : 0 < lam) (hmu : 0 < mu) (hc : 1 ≤ c) (hcc : c ≤ c')
    (hw : (calculateMetrics c mu lam).wq = some w)
    (hw' : (calculateMetrics c' mu lam).wq = some w') : w' ≤ w := by
  have hcq : (0 : ℚ) < (c : ℚ) := by exact_mod_cast hc
  have hcmu : 0 < (c : ℚ) * mu := by positivity
  have hstab : lam < (c : ℚ) * mu := by
    rcases lt_or_le lam ((c : ℚ) * mu) with hlt | hge
    · exact hlt
    · exfalso
      have hrho : 1 ≤ lam / ((c : ℚ) * mu) := (one_le_div hcmu).mpr hge
      have : calculateMetrics c mu lam = .unstable (lam / ((c : ℚ) * mu)) := by
        simp only [calculateMetrics]
        rw [if_pos hrho]
      rw [this] at hw
      simp [MMcResult.wq] at hw
  have hstab' : lam < (c' : ℚ) * mu := by
    calc lam < (c : ℚ) * mu := hstab
    _ ≤ (c' : ℚ) * mu := by
      apply mul_le_mul_of_nonneg_right _ (le_of_lt hmu)
      exact_mod_cast hcc
  rw [calculateMetrics_wq c mu lam hlam hmu hstab, Option.some.injEq] at hw
  rw [calculateMetrics_wq c' mu lam hlam hmu hstab', Option.some.injEq] at hw'
  rw [← hw, ← hw']
  exact pyRound_mono 2 (specWq_anti lam mu hlam hmu c c' hcc hstab)

/-- Witness for C7: `lambda = 1/3`, `mu = 1`, one versus two servers, with
reported waits `0.5` and `0.03`. -/
theorem C7_wq_monotone_witness :
    (calculateMetrics 1 1 (1 / 3)).wq = some (1 / 2) ∧
    (calculateMetrics 2 1 (1 / 3)).wq = some (3 / 100) ∧
    (3 / 100 : ℚ) ≤ 1 / 2 :=
  ⟨by with_unfolding_all decide, by with_unfolding_all decide,
    C7_wq_monotone (1 / 3) 1 1 2 (1 / 2) (3 / 100) (by norm_num) (by norm_num)
      (le_refl 1) (by norm_num) (by with_unfolding_all decide)
      (by with_unfolding_all decide)⟩

/-! ### Hash chain lemmas -/

theorem verifyChainIntegrity_append (xs : List ROIEntryRec) (e : ROIEntryRec) :
    verifyChainIntegrity (xs ++ [e]) =
      (verifyChainIntegrity xs &&
        match xs.getLast? with
        | none => true
        | some l => e.previous_entry_hash == l.entry_hash) := by
  induction xs with
  | nil => simp [verifyChainIntegrity]
  | cons a t ih =>
    cases t with
    | nil => simp [verifyChainIntegrity]
    | cons b t2 =>
      simp only [List.cons_append] at ih ⊢
      rw [verifyChainIntegrity, verifyChainIntegrity, ih, List.getLast?_cons_cons,
        Bool.and_assoc]

theorem verifyChainIntegrity_appendEntry (H : EntryData → String)
    (chain : List ROIEntryRec) (p : ROIPayload)
    (h : verifyChainIntegrity chain = true) :
    verifyChainIntegrity (appendEntry H chain p) = true := by
  unfold appendEntry
  rw [verifyChainIntegrity_append, h, Bool.true_and]
  cases hl : chain.getLast? with
  | none => simp [hl]
  | some l => simp [hl]

theorem buildChain_verify (H : EntryData → String) (ps : List ROIPayload) :
    verifyChainIntegrity (buildChain H ps) = true := by
  unfold buildChain
  suffices h : ∀ acc, verifyChainIntegrity acc = true →
      verifyChainIntegrity (ps.foldl (appendEntry H) acc) = true from h [] rfl
  induction ps with
  | nil => intro acc h; exact h
  | cons p t ih =>
    intro acc h
    exact ih _ (verifyChainIntegrity_appendEntry H acc p h)

theorem verify_adjacent : ∀ (pre : List ROIEntryRec) (a b : ROIEntryRec)
    (post : List ROIEntryRec),
    verifyChainIntegrity (pre ++ a :: b :: post) = true →
    b.previous_entry_hash = a.entry_hash := by
  intro pre
  induction pre with
  | nil =>
    intro a b post h
    simp only [List.nil_append, verifyChainIntegrity, Bool.and_eq_true] at h
    exact eq_of_beq h.1
  | cons x pre' ih =>
    intro a b post h
    rcases pre' with _ | ⟨y, pre''⟩
    · have h2 : (a.previous_entry_hash == x.entry_hash &&
          verifyChainIntegrity (a :: b :: post)) = true := h
      rw [Bool.and_eq_true] at h2
      exact ih a b post h2.2
    · have h2 : (y.previous_entry_hash == x.entry_hash &&
          verifyChainIntegrity (y :: (pre'' ++ a :: b :: post))) = true := h
      rw [Bool.and_eq_true] at h2
      exact ih a b post h2.2

theorem verify_break : ∀ (pre : List ROIEntryRec) (a b : ROIEntryRec)
    (post : List ROIEntryRec),
    b.previous_entry_hash ≠ a.entry_hash →
    verifyChainIntegrity (pre ++ a :: b :: post) = false := by
  intro pre
  induction pre with
  | nil =>
    intro a b post hne
    show (b.previous_entry_hash == a.entry_hash && verifyChainIntegrity (b :: post)) = false
    rw [beq_eq_false_iff_ne.mpr hne, Bool.false_and]
  | cons x pre' ih =>
    intro a b post hne
    rcases pre' with _ | ⟨y, pre''⟩
    · have h2 := ih a b post hne
      show (a.previous_entry_hash == x.entry_hash &&
        verifyChainIntegrity (a :: b :: post)) = false
      rw [show verifyChainIntegrity (a :: b :: post) = false from h2, Bool.and_false]
    · have h2 := ih a b post hne
      show (y.previous_entry_hash == x.entry_hash &&
        verifyChainIntegrity (y :: (pre'' ++ a :: b :: post))) = false
      rw [show verifyChainIntegrity (y :: (pre'' ++ a :: b :: post)) = false from h2,
        Bool.and_false]

/-- C2 counterexample: a two-entry chain built with the appends of
`create_roi_entry`, in which the first entry's stored payload
(`before_loss`) is mutated without recomputing its hash, still passes
`verify_chain_integrity`: the walk only compares stored hash pointers and
never recomputes a digest, so payload-only tampering is not reported. -/
theorem C2_counterexample :
    buildChain constHash [p20, p21] = [e20, e21] ∧
    e20mut.before_loss ≠ e20.before_loss ∧
    e20mut.entry_hash = e20.entry_hash ∧
    e20mut.previous_entry_hash = e20.previous_entry_hash ∧
    verifyChainIntegrity [e20mut, e21] = true := by
  refine ⟨?_, ?_, ?_, ?_, ?_⟩ <;> with_unfolding_all decide

/-- C2 (amended): for every digest function and payload sequence, the freshly
built chain passes `verify_chain_integrity`; and mutating a stored
`entry_hash` of an entry that has a successor (to any value other than the
original) makes the chain walk fail.  Payload-only mutation, by contrast, is
not detected by the chain walk (see the counterexample); it is only visible
to the per-entry recomputation `verify_single_entry`. -/
theorem C2_amended (H : EntryData → String) (ps : List ROIPayload)
    (pre : List ROIEntryRec) (a b : ROIEntryRec) (post : List ROIEntryRec)
    (h' : String) :
    verifyChainIntegrity (buildChain H ps) = true ∧
    (buildChain H ps = pre ++ a :: b :: post → h' ≠ a.entry_hash →
      verifyChainIntegrity (pre ++ withHash a h' :: b :: post) = false) := by
  refine ⟨buildChain_verify H ps, ?_⟩
  intro hchain hne
  have hlink : b.previous_entry_hash = a.entry_hash := by
    apply verify_adjacent pre a b post
    rw [← hchain]
    exact buildChain_verify H ps
  apply verify_break
  show b.previous_entry_hash ≠ h'
  rw [hlink]
  exact fun hcontra => hne hcontra.symm

/-- Witness for C2 (amended): the concrete two-payload chain, with the first
entry's hash overwritten by `"x"`. -/
theorem C2_amended_witness :
    buildChain constHash [p20, p21] = [] ++ e20 :: e21 :: [] ∧
    "x" ≠ e20.entry_hash ∧
    verifyChainIntegrity ([] ++ withHash e20 "x" :: e21 :: []) = false :=
  ⟨by with_unfolding_all decide, by with_unfolding_all decide,
    (C2_amended constHash [p20, p21] [] e20 e21 [] "x").2
      (by with_unfolding_all decide) (by with_unfolding_all decide)⟩

/-! ### Loss calculator lemmas -/

theorem ratTrunc_mono : Monotone ratTrunc := by
  intro x y h
  unfold ratTrunc
  split_ifs with hx hy
  · exact neg_le_neg (Int.floor_mono (neg_le_neg h))
  · have h1 : 0 ≤ ⌊-x⌋ := Int.le_floor.mpr (by push_cast; linarith)
    have h2 : 0 ≤ ⌊y⌋ := Int.le_floor.mpr (by push_cast; linarith [not_lt.mp hy])
    linarith
  · exfalso
    have := not_lt.mp hx
    linarith
  · exact Int.floor_mono h

theorem ratTrunc_nonneg (q : ℚ) (h : 0 ≤ q) : 0 ≤ ratTrunc q := by
  unfold ratTrunc
  rw [if_neg (not_lt.mpr h)]
  exact Int.le_floor.mpr (by push_cast; linarith)

theorem sum_map_set_le {α β : Type} [OrderedAddCommMonoid β] (f : α → β) :
    ∀ (ms : List α) (i : ℕ) (m m' : α), ms.get? i = some m → f m ≤ f m' →
      (ms.map f).sum ≤ ((ms.set i m').map f).sum := by
  intro ms
  induction ms with
  | nil => intro i m m' h; simp at h
  | cons a t ih =>
    intro i m m' h hle
    cases i with
    | zero =>
      rw [List.get?_cons_zero, Option.some.injEq] at h
      subst h
      simp only [List.set, List.map_cons, List.sum_cons]
      exact add_le_add_right hle _
    | succ n =>
      rw [List.get?_cons_succ] at h
      simp only [List.set, List.map_cons, List.sum_cons]
      exact add_le_add_left (ih n m m' h hle) _

theorem sum_map_set_eq {α β : Type} [AddCommMonoid β] (f : α → β) :
    ∀ (ms : List α) (i : ℕ) (m m' : α), ms.get? i = some m → f m' = f m →
      ((ms.set i m').map f).sum = (ms.map f).sum := by
  intro ms
  induction ms with
  | nil => intro i m m' h; simp at h
  | cons a t ih =>
    intro i m m' h he
    cases i with
    | zero =>
      rw [List.get?_cons_zero, Option.some.injEq] at h
      subst h
      simp only [List.set, List.map_cons, List.sum_cons, he]
    | succ n =>
      rw [List.get?_cons_succ] at h
      simp only [List.set, List.map_cons, List.sum_cons, ih n m m' h he]

theorem arrival_rate_nonneg (m : FlowMeasurement) : 0 ≤ m.arrival_rate := by
  unfold FlowMeasurement.arrival_rate
  split_ifs with h
  · exact le_refl 0
  · have := not_le.mp h
    positivity

theorem departure_rate_period_pos (m : FlowMeasurement)
    (h : 0 < m.departure_rate) : 0 < m.observation_period_seconds := by
  by_contra hc
  have hc2 : m.observation_period_seconds ≤ 0 := not_lt.mp hc
  rw [FlowMeasurement.departure_rate, if_pos hc2] at h
  exact lt_irrefl 0 h

theorem waitTimeLossTerm_nonneg (P : FinancialParameters) (m : FlowMeasurement) :
    0 ≤ waitTimeLossTerm P m := by
  unfold waitTimeLossTerm
  cases m.avg_wait_time with
  | none => exact le_refl 0
  | some w =>
    dsimp only
    split_ifs with h
    · have h2 := h.2
      have : (0 : ℚ) ≤ (m.queue_length : ℚ) := by positivity
      nlinarith
    · exact le_refl 0

theorem throughputLossTerm_nonneg (cap : CapacityConstraint) (m : FlowMeasurement) :
    0 ≤ throughputLossTerm cap m := by
  unfold throughputLossTerm
  dsimp only
  split_ifs with h
  · exact le_max_left 0 _
  · exact le_refl 0

theorem walkawayLossTerm_nonneg (P : FinancialParameters) (m : FlowMeasurement)
    (hppm : 0 ≤ P.walkaway_probability_per_minute) : 0 ≤ walkawayLossTerm P m := by
  unfold walkawayLossTerm
  cases m.avg_wait_time with
  | none => exact le_refl 0
  | some w =>
    dsimp only
    split_ifs with h
    · apply ratTrunc_nonneg
      have hexc : 0 ≤ (w - P.walkaway_threshold_minutes * 60) / 60 := by
        have := h.2
        linarith
      have hprob : 0 ≤ min (1 / 2 : ℚ)
          ((w - P.walkaway_threshold_minutes * 60) / 60 * P.walkaway_probability_per_minute) := by
        apply le_min
        · norm_num
        · positivity
      exact mul_nonneg (by positivity) hprob
    · exact le_refl 0

theorem idleLossTerm_nonneg (cap : CapacityConstraint) (m : FlowMeasurement)
    (hper : 0 ≤ m.observation_period_seconds) : 0 ≤ idleLossTerm cap m := by
  unfold idleLossTerm
  dsimp only
  split_ifs with hdr hbr hbr2
  · have hau : 0 ≤ m.arrival_rate / ((cap.max_servers : ℚ) * m.departure_rate) := by
      have h1 := arrival_rate_nonneg m
      have h2 : (0 : ℚ) ≤ (cap.max_servers : ℚ) * m.departure_rate := by positivity
      positivity
    have ht : 0 ≤ cap.target_utilization -
        m.arrival_rate / ((cap.max_servers : ℚ) * m.departure_rate) := by linarith
    positivity
  · exact le_refl 0
  · have : (0 : ℚ) ≤ cap.target_utilization - 1 / 2 := by linarith
    positivity
  · exact le_refl 0

theorem overtimeLossTerm_nonneg (cap : CapacityConstraint) (m : FlowMeasurement) :
    0 ≤ overtimeLossTerm cap m := by
  unfold overtimeLossTerm
  dsimp only
  split_ifs with hdr hbr
  · have hper := departure_rate_period_pos m hdr
    have : (0 : ℚ) ≤ m.arrival_rate / ((cap.max_servers : ℚ) * m.departure_rate) - 1 := by
      linarith
    have hper2 : (0 : ℚ) ≤ m.observation_period_seconds := le_of_lt hper
    positivity
  · exact le_refl 0
  · exact le_refl 0

theorem waitFactor_nonneg (ent : Option EntropyMeasurement) : 0 ≤ waitFactor ent := by
  unfold waitFactor
  cases ent with
  | none => norm_num
  | some e =>
    dsimp only
    split_ifs with h
    · have h2 : (0 : ℝ) < min e.variance_impact_multiplier 2 := by
        apply lt_min
        · linarith
        · norm_num
      linarith
    · norm_num

theorem totalLoss_eq (P : FinancialParameters) (now : ℤ) (ms : List FlowMeasurement)
    (lr : Option LittlesLawResult) (ent : Option EntropyMeasurement)
    (cap : Option CapacityConstraint) (td : Option ℤ) (h : ms ≠ []) :
    (calcTotalLoss P now ms lr ent cap td).total_loss =
      waitFactor ent * (((waitTimeLoss P ms).2 : ℚ) : ℝ) +
        (((throughputLoss P ms cap).2 : ℚ) : ℝ) + (((walkawayLoss P ms).2 : ℚ) : ℝ) +
        (((idleLoss P ms cap).2 : ℚ) : ℝ) + (((overtimeLoss P ms cap).2 : ℚ) : ℝ) := by
  cases ms with
  | nil => exact absurd rfl h
  | cons m0 rest =>
    cases ent with
    | none =>
      simp only [calcTotalLoss, FinancialLoss.total_loss, waitFactor, one_mul]
    | some e =>
      by_cases hv : 1 < e.variance_impact_multiplier
      · simp only [calcTotalLoss, FinancialLoss.total_loss, waitFactor, if_pos hv]
        ring
      · simp only [calcTotalLoss, FinancialLoss.total_loss, waitFactor, if_neg hv, one_mul]

theorem totalLoss_nil (P : FinancialParameters) (now : ℤ)
    (lr : Option LittlesLawResult) (ent : Option EntropyMeasurement)
    (cap : Option CapacityConstraint) (td : Option ℤ) :
    (calcTotalLoss P now [] lr ent cap td).total_loss = 0 := by
  simp [calcTotalLoss, FinancialLoss.total_loss, emptyLoss]

theorem arrival_rate_mono (m : FlowMeasurement) (a' : ℕ) (ha : m.arrival_count ≤ a') :
    m.arrival_rate ≤ ({m with arrival_count := a'} : FlowMeasurement).arrival_rate := by
  unfold FlowMeasurement.arrival_rate
  dsimp only
  split_ifs with h
  · exact le_refl 0
  · have hp : 0 < m.observation_period_seconds := lt_of_not_le h
    rw [div_le_div_iff_of_pos_right hp]
    exact_mod_cast ha

theorem waitTimeLossTerm_wait_mono (P : FinancialParameters) (m : FlowMeasurement)
    (w w' : ℚ) (hacc : 0 ≤ P.acceptable_wait_minutes)
    (hw : m.avg_wait_time = some w) (hle : w ≤ w') :
    waitTimeLossTerm P m ≤ waitTimeLossTerm P {m with avg_wait_time := some w'} := by
  unfold waitTimeLossTerm
  rw [hw]
  dsimp only
  have hthr : 0 ≤ P.acceptable_wait_minutes * 60 := by positivity
  have hq : (0 : ℚ) ≤ (m.queue_length : ℚ) := by positivity
  split_ifs with h1 h2 h3
  · nlinarith [h1.2]
  · exfalso
    apply h2
    refine ⟨fun h0 => ?_, by linarith [h1.2]⟩
    rw [h0] at hle
    linarith [h1.2]
  · nlinarith [h3.2]
  · exact le_refl 0

theorem walkawayLossTerm_wait_mono (P : FinancialParameters) (m : FlowMeasurement)
    (w w' : ℚ) (hthr : 0 ≤ P.walkaway_threshold_minutes)
    (hppm : 0 ≤ P.walkaway_probability_per_minute)
    (hw : m.avg_wait_time = some w) (hle : w ≤ w') :
    walkawayLossTerm P m ≤ walkawayLossTerm P {m with avg_wait_time := some w'} := by
  unfold walkawayLossTerm
  rw [hw]
  dsimp only
  have hthr60 : 0 ≤ P.walkaway_threshold_minutes * 60 := by positivity
  have hq : (0 : ℚ) ≤ (m.queue_length : ℚ) := by positivity
  split_ifs with h1 h2 h3
  · apply ratTrunc_mono
    apply mul_le_mul_of_nonneg_left _ hq
    apply min_le_min (le_refl _)
    apply mul_le_mul_of_nonneg_right _ hppm
    have := h1.2
    linarith
  · exfalso
    apply h2
    refine ⟨fun h0 => ?_, by linarith [h1.2]⟩
    rw [h0] at hle
    linarith [h1.2]
  · apply ratTrunc_nonneg
    apply mul_nonneg hq
    apply le_min
    · norm_num
    · have := h3.2
      have hexc : 0 ≤ (w' - P.walkaway_threshold_minutes * 60) / 60 := by linarith
      positivity
  · exact le_refl 0

theorem throughputLossTerm_arr_mono (cap : CapacityConstraint) (m : FlowMeasurement)
    (a' : ℕ) (ha : m.arrival_count ≤ a') :
    throughputLossTerm cap m ≤ throughputLossTerm cap {m with arrival_count := a'} := by
  unfold throughputLossTerm
  dsimp only
  have hc : ((m.arrival_count : ℚ)) ≤ (a' : ℚ) := by exact_mod_cast ha
  split_ifs with h1 h2 h3
  · exact max_le_max (le_refl 0) (ratTrunc_mono (by linarith))
  · exfalso
    apply h2
    linarith
  · exact le_max_left 0 _
  · exact le_refl 0

theorem overtimeLossTerm_arr_mono (cap : CapacityConstraint) (m : FlowMeasurement)
    (a' : ℕ) (ha : m.arrival_count ≤ a') :
    overtimeLossTerm cap m ≤ overtimeLossTerm cap {m with arrival_count := a'} := by
  have hdr : ({m with arrival_count := a'} : FlowMeasurement).departure_rate =
      m.departure_rate := rfl
  have hper : ({m with arrival_count := a'} : FlowMeasurement).observation_period_seconds =
      m.observation_period_seconds := rfl
  have har := arrival_rate_mono m a' ha
  have hns : (0 : ℚ) ≤ (cap.max_servers : ℚ) := by positivity
  unfold overtimeLossTerm
  rw [hdr, hper]
  dsimp only
  split_ifs with h1 h2 h3
  · have hp := departure_rate_period_pos m h1
    have hu : m.arrival_rate / ((cap.max_servers : ℚ) * m.departure_rate) ≤
        ({m with arrival_count := a'} : FlowMeasurement).arrival_rate /
          ((cap.max_servers : ℚ) * m.departure_rate) := by
      have hd0 : (0 : ℚ) ≤ (cap.max_servers : ℚ) * m.departure_rate := by positivity
      rcases lt_or_eq_of_le hd0 with hpos | heq
      · rw [div_le_div_iff_of_pos_right hpos]
        exact har
      · rw [← heq, div_zero, div_zero]
    nlinarith [mul_nonneg (mul_nonneg (sub_nonneg.mpr hu) (le_of_lt hp)) hns]
  · exfalso
    apply h3
    have hu : m.arrival_rate / ((cap.max_servers : ℚ) * m.departure_rate) ≤
        ({m with arrival_count := a'} : FlowMeasurement).arrival_rate /
          ((cap.max_servers : ℚ) * m.departure_rate) := by
      have hd0 : (0 : ℚ) ≤ (cap.max_servers : ℚ) * m.departure_rate := by positivity
      rcases lt_or_eq_of_le hd0 with hpos | heq
      · rw [div_le_div_iff_of_pos_right hpos]
        exact har
      · rw [← heq, div_zero, div_zero]
    linarith
  · have hp := departure_rate_period_pos m h1
    have : (0 : ℚ) ≤ ({m with arrival_count := a'} : FlowMeasurement).arrival_rate /
        ((cap.max_servers : ℚ) * m.departure_rate) - 1 := by linarith
    have hp2 : (0 : ℚ) ≤ m.observation_period_seconds := le_of_lt hp
    positivity
  · exact le_refl 0
  · exact le_refl 0

theorem idleLossTerm_arr_anti (cap : CapacityConstraint) (m : FlowMeasurement)
    (a' : ℕ) (ha : m.arrival_count ≤ a') :
    idleLossTerm cap {m with arrival_count := a'} ≤ idleLossTerm cap m := by
  have hdr : ({m with arrival_count := a'} : FlowMeasurement).departure_rate =
      m.departure_rate := rfl
  have hper : ({m with arrival_count := a'} : FlowMeasurement).observation_period_seconds =
      m.observation_period_seconds := rfl
  have har := arrival_rate_mono m a' ha
  have hns : (0 : ℚ) ≤ (cap.max_servers : ℚ) := by positivity
  unfold idleLossTerm
  rw [hdr, hper]
  dsimp only
  split_ifs with h1 h2 h3 h3
  · -- departure rate positive, both below target
    have hp := departure_rate_period_pos m h1
    have hu : m.arrival_rate / ((cap.max_servers : ℚ) * m.departure_rate) ≤
        ({m with arrival_count := a'} : FlowMeasurement).arrival_rate /
          ((cap.max_servers : ℚ) * m.departure_rate) := by
      have hd0 : (0 : ℚ) ≤ (cap.max_servers : ℚ) * m.departure_rate := by positivity
      rcases lt_or_eq_of_le hd0 with hpos | heq
      · rw [div_le_div_iff_of_pos_right hpos]
        exact har
      · rw [← heq, div_zero, div_zero]
    nlinarith [mul_nonneg (mul_nonneg (sub_nonneg.mpr hu) (le_of_lt hp)) hns]
  · -- mutated measurement below target but original not: impossible
    exfalso
    apply h3
    have hu : m.arrival_rate / ((cap.max_servers : ℚ) * m.departure_rate) ≤
        ({m with arrival_count := a'} : FlowMeasurement).arrival_rate /
          ((cap.max_servers : ℚ) * m.departure_rate) := by
      have hd0 : (0 : ℚ) ≤ (cap.max_servers : ℚ) * m.departure_rate := by positivity
      rcases lt_or_eq_of_le hd0 with hpos | heq
      · rw [div_le_div_iff_of_pos_right hpos]
        exact har
      · rw [← heq, div_zero, div_zero]
    linarith
  · -- original below target, mutated not: left side is zero
    have hp := departure_rate_period_pos m h1
    have hau : 0 ≤ m.arrival_rate / ((cap.max_servers : ℚ) * m.departure_rate) := by
      have h1' := arrival_rate_nonneg m
      have h2' : (0 : ℚ) ≤ (cap.max_servers : ℚ) * m.departure_rate := by positivity
      positivity
    have ht : 0 ≤ cap.target_utilization -
        m.arrival_rate / ((cap.max_servers : ℚ) * m.departure_rate) := by linarith
    have hp2 : (0 : ℚ) ≤ m.observation_period_seconds := le_of_lt hp
    positivity
  · exact le_refl 0
  · exact le_refl _
  · exact le_refl _

theorem waitTimeLoss_snd_mono (P : FinancialParameters) (ms ms' : List FlowMeasurement)
    (hval : 0 ≤ P.customer_time_value_per_minute) (hcf : 0 ≤ P.conservative_factor)
    (h : (ms.map (waitTimeLossTerm P)).sum ≤ (ms'.map (waitTimeLossTerm P)).sum) :
    (waitTimeLoss P ms).2 ≤ (waitTimeLoss P ms').2 := by
  unfold waitTimeLoss
  dsimp only
  nlinarith [mul_nonneg (mul_nonneg (sub_nonneg.mpr h) hval) hcf]

theorem walkawayLoss_snd_mono (P : FinancialParameters) (ms ms' : List FlowMeasurement)
    (hrev : 0 ≤ P.avg_revenue_per_customer) (hltv : 0 ≤ P.customer_lifetime_value)
    (hcf : 0 ≤ P.conservative_factor)
    (h : (ms.map (walkawayLossTerm P)).sum ≤ (ms'.map (walkawayLossTerm P)).sum) :
    (walkawayLoss P ms).2 ≤ (walkawayLoss P ms').2 := by
  unfold walkawayLoss
  dsimp only
  have hc : ((ms.map (walkawayLossTerm P)).sum : ℚ) ≤
      ((ms'.map (walkawayLossTerm P)).sum : ℚ) := Int.cast_le.mpr h
  nlinarith [mul_nonneg (mul_nonneg (sub_nonneg.mpr hc) hrev) hcf,
    mul_nonneg (mul_nonneg (sub_nonneg.mpr hc) hltv) hcf]

theorem throughputLoss_snd_mono (P : FinancialParameters) (ms ms' : List FlowMeasurement)
    (cap : Option CapacityConstraint)
    (hrev : 0 ≤ P.avg_revenue_per_customer) (hcf : 0 ≤ P.conservative_factor)
    (h : ∀ c : CapacityConstraint, cap = some c →
      (ms.map (throughputLossTerm c)).sum ≤ (ms'.map (throughputLossTerm c)).sum) :
    (throughputLoss P ms cap).2 ≤ (throughputLoss P ms' cap).2 := by
  cases cap with
  | none => exact le_refl 0
  | some c =>
    have hsum := h c rfl
    unfold throughputLoss
    dsimp only
    have hc : ((ms.map (throughputLossTerm c)).sum : ℚ) ≤
        ((ms'.map (throughputLossTerm c)).sum : ℚ) := Int.cast_le.mpr hsum
    nlinarith [mul_nonneg (mul_nonneg (sub_nonneg.mpr hc) hrev) hcf]

theorem idleLoss_snd_mono (P : FinancialParameters) (ms ms' : List FlowMeasurement)
    (cap : Option CapacityConstraint)
    (hlab : 0 ≤ P.labor_cost_per_hour) (hcf : 0 ≤ P.conservative_factor)
    (h : ∀ c : CapacityConstraint, cap = some c →
      (ms.map (idleLossTerm c)).sum ≤ (ms'.map (idleLossTerm c)).sum) :
    (idleLoss P ms cap).2 ≤ (idleLoss P ms' cap).2 := by
  cases cap with
  | none => exact le_refl 0
  | some c =>
    have hsum := h c rfl
    unfold idleLoss
    dsimp only
    nlinarith [mul_nonneg (mul_nonneg (sub_nonneg.mpr hsum) hlab) hcf]

theorem overtimeLoss_snd_mono (P : FinancialParameters) (ms ms' : List FlowMeasurement)
    (cap : Option CapacityConstraint)
    (hlab : 0 ≤ P.labor_cost_per_hour) (hot : 1 ≤ P.overtime_multiplier)
    (hcf : 0 ≤ P.conservative_factor)
    (h : ∀ c : CapacityConstraint, cap = some c →
      (ms.map (overtimeLossTerm c)).sum ≤ (ms'.map (overtimeLossTerm c)).sum) :
    (overtimeLoss P ms cap).2 ≤ (overtimeLoss P ms' cap).2 := by
  cases cap with
  | none => exact le_refl 0
  | some c =>
    have hsum := h c rfl
    unfold overtimeLoss
    dsimp only
    nlinarith [mul_nonneg (mul_nonneg (mul_nonneg (sub_nonneg.mpr hsum) hlab)
      (sub_nonneg.mpr hot)) hcf]

theorem sum_map_set_ge {α β : Type} [OrderedAddCommMonoid β] (f : α → β) :
    ∀ (ms : List α) (i : ℕ) (m m' : α), ms.get? i = some m → f m' ≤ f m →
      ((ms.set i m').map f).sum ≤ (ms.map f).sum := by
  intro ms
  induction ms with
  | nil => intro i m m' h; simp at h
  | cons a t ih =>
    intro i m m' h hle
    cases i with
    | zero =>
      rw [List.get?_cons_zero, Option.some.injEq] at h
      subst h
      simp only [List.set, List.map_cons, List.sum_cons]
      exact add_le_add_right hle _
    | succ n =>
      rw [List.get?_cons_succ] at h
      simp only [List.set, List.map_cons, List.sum_cons]
      exact add_le_add_left (ih n m m' h hle) _

theorem waitTimeLoss_cf_le (P : FinancialParameters) (cf' : ℚ) (ms : List FlowMeasurement)
    (hval : 0 ≤ P.customer_time_value_per_minute) (hcf : P.conservative_factor ≤ cf') :
    (waitTimeLoss P ms).2 ≤ (waitTimeLoss { P with conservative_factor := cf' } ms).2 := by
  unfold waitTimeLoss
  dsimp only
  have hsame : (ms.map (waitTimeLossTerm { P with conservative_factor := cf' })).sum =
      (ms.map (waitTimeLossTerm P)).sum := rfl
  rw [hsame]
  have hbase : 0 ≤ (ms.map (waitTimeLossTerm P)).sum := by
    apply List.sum_nonneg
    intro x hx
    obtain ⟨m, _, rfl⟩ := List.mem_map.mp hx
    exact waitTimeLossTerm_nonneg P m
  nlinarith [mul_nonneg (mul_nonneg hbase hval) (sub_nonneg.mpr hcf)]

theorem throughputLoss_cf_le (P : FinancialParameters) (cf' : ℚ)
    (ms : List FlowMeasurement) (cap : Option CapacityConstraint)
    (hrev : 0 ≤ P.avg_revenue_per_customer) (hcf : P.conservative_factor ≤ cf') :
    (throughputLoss P ms cap).2 ≤
      (throughputLoss { P with conservative_factor := cf' } ms cap).2 := by
  cases cap with
  | none => exact le_refl 0
  | some c =>
    unfold throughputLoss
    dsimp only
    have hbase : (0 : ℤ) ≤ (ms.map (throughputLossTerm c)).sum := by
      apply List.sum_nonneg
      intro x hx
      obtain ⟨m, _, rfl⟩ := List.mem_map.mp hx
      exact throughputLossTerm_nonneg c m
    have hb : (0 : ℚ) ≤ ((ms.map (throughputLossTerm c)).sum : ℚ) := by exact_mod_cast hbase
    nlinarith [mul_nonneg (mul_nonneg hb hrev) (sub_nonneg.mpr hcf)]

theorem walkawayLoss_cf_le (P : FinancialParameters) (cf' : ℚ) (ms : List FlowMeasurement)
    (hrev : 0 ≤ P.avg_revenue_per_customer) (hltv : 0 ≤ P.customer_lifetime_value)
    (hppm : 0 ≤ P.walkaway_probability_per_minute) (hcf : P.conservative_factor ≤ cf') :
    (walkawayLoss P ms).2 ≤ (walkawayLoss { P with conservative_factor := cf' } ms).2 := by
  unfold walkawayLoss
  dsimp only
  have hsame : (ms.map (walkawayLossTerm { P with conservative_factor := cf' })).sum =
      (ms.map (walkawayLossTerm P)).sum := rfl
  rw [hsame]
  have hbase : (0 : ℤ) ≤ (ms.map (walkawayLossTerm P)).sum := by
    apply List.sum_nonneg
    intro x hx
    obtain ⟨m, _, rfl⟩ := List.mem_map.mp hx
    exact walkawayLossTerm_nonneg P m hppm
  have hb : (0 : ℚ) ≤ ((ms.map (walkawayLossTerm P)).sum : ℚ) := by exact_mod_cast hbase
  nlinarith [mul_nonneg (mul_nonneg hb hrev) (sub_nonneg.mpr hcf),
    mul_nonneg (mul_nonneg hb hltv) (sub_nonneg.mpr hcf)]

theorem idleLoss_cf_le (P : FinancialParameters) (cf' : ℚ) (ms : List FlowMeasurement)
    (cap : Option CapacityConstraint) (hlab : 0 ≤ P.labor_cost_per_hour)
    (hcf : P.conservative_factor ≤ cf')
    (hper : ∀ m ∈ ms, 0 ≤ m.observation_period_seconds) :
    (idleLoss P ms cap).2 ≤ (idleLoss { P with conservative_factor := cf' } ms cap).2 := by
  cases cap with
  | none => exact le_refl 0
  | some c =>
    unfold idleLoss
    dsimp only
    have hbase : 0 ≤ (ms.map (idleLossTerm c)).sum := by
      apply List.sum_nonneg
      intro x hx
      obtain ⟨m, hmem, rfl⟩ := List.mem_map.mp hx
      exact idleLossTerm_nonneg c m (hper m hmem)
    nlinarith [mul_nonneg (mul_nonneg hbase hlab) (sub_nonneg.mpr hcf)]

theorem overtimeLoss_cf_le (P : FinancialParameters) (cf' : ℚ)
    (ms : List FlowMeasurement) (cap : Option CapacityConstraint)
    (hlab : 0 ≤ P.labor_cost_per_hour) (hot : 1 ≤ P.overtime_multiplier)
    (hcf : P.conservative_factor ≤ cf') :
    (overtimeLoss P ms cap).2 ≤
      (overtimeLoss { P with conservative_factor := cf' } ms cap).2 := by
  cases cap with
  | none => exact le_refl 0
  | some c =>
    unfold overtimeLoss
    dsimp only
    have hbase : 0 ≤ (ms.map (overtimeLossTerm c)).sum := by
      apply List.sum_nonneg
      intro x hx
      obtain ⟨m, _, rfl⟩ := List.mem_map.mp hx
      exact overtimeLossTerm_nonneg c m
    nlinarith [mul_nonneg (mul_nonneg (mul_nonneg hbase hlab) (sub_nonneg.mpr hot))
      (sub_nonneg.mpr hcf)]

/-- C6 counterexample: with the default financial parameters, one server, a
90000-second period and 3028 departures, raising the arrival count from 1801
to 1802 (both above the capacity threshold 1800) makes total_loss decrease
from 31605 + 84525/757 to 31710: the idle-time branch switches off and its
cost drop (about 111.66) outweighs the throughput gain (105). -/
theorem C6_counterexample :
    (throughputLossTerm cap6 (m6 1801) < throughputLossTerm cap6 (m6 1802)) ∧
    (1200 * (12 / 10) : ℚ) * ((cap6.max_servers : ℚ) * (90000 : ℚ) / 60 / 1200) <
      (1801 : ℚ) ∧
    (calcTotalLoss defaultParams 0 [m6 1802] none none (some cap6) none).total_loss <
      (calcTotalLoss defaultParams 0 [m6 1801] none none (some cap6) none).total_loss := by
  refine ⟨?_, by norm_num [cap6], ?_⟩
  · norm_num [throughputLossTerm, m6, cap6, ratTrunc]
  · rw [totalLoss_eq _ _ _ _ _ _ _ (by simp), totalLoss_eq _ _ _ _ _ _ _ (by simp)]
    have h1 : (waitTimeLoss defaultParams [m6 1801]).2 = 0 := by
      with_unfolding_all decide
    have h1' : (waitTimeLoss defaultParams [m6 1802]).2 = 0 := by
      with_unfolding_all decide
    have h2 : (throughputLoss defaultParams [m6 1801] (some cap6)).2 = 31605 := by
      norm_num [throughputLoss, throughputLossTerm, defaultParams, m6, cap6, ratTrunc]
    have h2' : (throughputLoss defaultParams [m6 1802] (some cap6)).2 = 31710 := by
      norm_num [throughputLoss, throughputLossTerm, defaultParams, m6, cap6, ratTrunc]
    have h3 : (walkawayLoss defaultParams [m6 1801]).2 = 0 := by
      with_unfolding_all decide
    have h3' : (walkawayLoss defaultParams [m6 1802]).2 = 0 := by
      with_unfolding_all decide
    have h4 : (idleLoss defaultParams [m6 1801] (some cap6)).2 = 84525 / 757 := by
      norm_num [idleLoss, idleLossTerm, defaultParams, m6, cap6,
        FlowMeasurement.arrival_rate, FlowMeasurement.departure_rate]
    have h4' : (idleLoss defaultParams [m6 1802] (some cap6)).2 = 0 := by
      norm_num [idleLoss, idleLossTerm, defaultParams, m6, cap6,
        FlowMeasurement.arrival_rate, FlowMeasurement.departure_rate]
    have h5 : (overtimeLoss defaultParams [m6 1801] (some cap6)).2 = 0 := by
      with_unfolding_all decide
    have h5' : (overtimeLoss defaultParams [m6 1802] (some cap6)).2 = 0 := by
      with_unfolding_all decide
    rw [h1, h1', h2, h2', h3, h3', h4, h4', h5, h5']
    norm_num [waitFactor]

/-- C6 (amended): with sign-sane financial parameters, `total_loss` is
monotone non-decreasing in `conservative_factor` and in a measurement's
`avg_wait_time`; for `arrival_count` the throughput-plus-overtime cost is
non-decreasing and the idle-time cost is non-increasing, and `total_loss`
itself is non-decreasing in `arrival_count` provided the idle-time component
is unchanged (in general the idle branch can switch off and make
`total_loss` decrease, as the counterexample shows). -/
theorem C6_amended :
    (∀ (P : FinancialParameters) (cf' : ℚ) (now : ℤ) (ms : List FlowMeasurement)
      (lr : Option LittlesLawResult) (ent : Option EntropyMeasurement)
      (cap : Option CapacityConstraint) (td : Option ℤ),
      P.Nonneg → P.conservative_factor ≤ cf' →
      (∀ m ∈ ms, 0 ≤ m.observation_period_seconds) →
      (calcTotalLoss P now ms lr ent cap td).total_loss ≤
        (calcTotalLoss { P with conservative_factor := cf' } now ms lr ent cap td).total_loss) ∧
    (∀ (P : FinancialParameters) (now : ℤ) (ms : List FlowMeasurement)
      (lr : Option LittlesLawResult) (ent : Option EntropyMeasurement)
      (cap : Option CapacityConstraint) (td : Option ℤ) (i : ℕ) (m : FlowMeasurement)
      (w w' : ℚ),
      P.Nonneg → ms.get? i = some m → m.avg_wait_time = some w → w ≤ w' →
      (calcTotalLoss P now ms lr ent cap td).total_loss ≤
        (calcTotalLoss P now (ms.set i { m with avg_wait_time := some w' })
          lr ent cap td).total_loss) ∧
    (∀ (P : FinancialParameters) (ms : List FlowMeasurement)
      (cap : Option CapacityConstraint) (i : ℕ) (m : FlowMeasurement) (a' : ℕ),
      P.Nonneg → ms.get? i = some m → m.arrival_count ≤ a' →
      (throughputLoss P ms cap).2 + (overtimeLoss P ms cap).2 ≤
        (throughputLoss P (ms.set i { m with arrival_count := a' }) cap).2 +
          (overtimeLoss P (ms.set i { m with arrival_count := a' }) cap).2 ∧
      (idleLoss P (ms.set i { m with arrival_count := a' }) cap).2 ≤
        (idleLoss P ms cap).2) ∧
    (∀ (P : FinancialParameters) (now : ℤ) (ms : List FlowMeasurement)
      (lr : Option LittlesLawResult) (ent : Option EntropyMeasurement)
      (cap : Option CapacityConstraint) (td : Option ℤ) (i : ℕ) (m : FlowMeasurement)
      (a' : ℕ),
      P.Nonneg → ms.get? i = some m → m.arrival_count ≤ a' →
      idleLoss P (ms.set i { m with arrival_count := a' }) cap = idleLoss P ms cap →
      (calcTotalLoss P now ms lr ent cap td).total_loss ≤
        (calcTotalLoss P now (ms.set i { m with arrival_count := a' })
          lr ent cap td).total_loss) := by
  refine ⟨?_, ?_, ?_, ?_⟩
  · -- conservative factor
    intro P cf' now ms lr ent cap td hP hcf hper
    rcases ms with _ | ⟨m0, rest⟩
    · rw [totalLoss_nil, totalLoss_nil]
    obtain ⟨hrev, hltv, hval, hacc, hlab, hot, hwthr, hppm, hcf0⟩ := hP
    rw [totalLoss_eq _ _ _ _ _ _ _ (by simp), totalLoss_eq _ _ _ _ _ _ _ (by simp)]
    have hwf := waitFactor_nonneg ent
    refine add_le_add (add_le_add (add_le_add (add_le_add ?_ ?_) ?_) ?_) ?_
    · exact mul_le_mul_of_nonneg_left
        (Rat.cast_le.mpr (waitTimeLoss_cf_le P cf' (m0 :: rest) hval hcf)) hwf
    · exact_mod_cast throughputLoss_cf_le P cf' (m0 :: rest) cap hrev hcf
    · exact_mod_cast walkawayLoss_cf_le P cf' (m0 :: rest) hrev hltv hppm hcf
    · exact_mod_cast idleLoss_cf_le P cf' (m0 :: rest) cap hlab hcf hper
    · exact_mod_cast overtimeLoss_cf_le P cf' (m0 :: rest) cap hlab hot hcf
  · -- avg_wait_time
    intro P now ms lr ent cap td i m w w' hP hm hw hle
    obtain ⟨hrev, hltv, hval, hacc, hlab, hot, hwthr, hppm, hcf0⟩ := hP
    have hne : ms ≠ [] := by
      intro h0
      rw [h0] at hm
      simp at hm
    have hne' : ms.set i { m with avg_wait_time := some w' } ≠ [] := by
      intro h0
      rcases ms with _ | ⟨m0, rest⟩
      · exact hne rfl
      · cases i <;> simp [List.set] at h0
    rw [totalLoss_eq _ _ _ _ _ _ _ hne, totalLoss_eq _ _ _ _ _ _ _ hne']
    have htp : throughputLoss P (ms.set i { m with avg_wait_time := some w' }) cap =
        throughputLoss P ms cap := by
      cases cap with
      | none => rfl
      | some c =>
        unfold throughputLoss
        dsimp only
        rw [sum_map_set_eq (throughputLossTerm c) ms i m { m with avg_wait_time := some w' } hm rfl]
    have hid : idleLoss P (ms.set i { m with avg_wait_time := some w' }) cap =
        idleLoss P ms cap := by
      cases cap with
      | none => rfl
      | some c =>
        unfold idleLoss
        dsimp only
        rw [sum_map_set_eq (idleLossTerm c) ms i m { m with avg_wait_time := some w' } hm rfl]
    have hov : overtimeLoss P (ms.set i { m with avg_wait_time := some w' }) cap =
        overtimeLoss P ms cap := by
      cases cap with
      | none => rfl
      | some c =>
        unfold overtimeLoss
        dsimp only
        rw [sum_map_set_eq (overtimeLossTerm c) ms i m { m with avg_wait_time := some w' } hm rfl]
    rw [htp, hid, hov]
    have hwf := waitFactor_nonneg ent
    refine add_le_add (add_le_add (add_le_add (add_le_add ?_ (le_refl _)) ?_)
      (le_refl _)) (le_refl _)
    · apply mul_le_mul_of_nonneg_left _ hwf
      apply Rat.cast_le.mpr
      apply waitTimeLoss_snd_mono P _ _ hval hcf0
      exact sum_map_set_le _ ms i m _ hm
        (waitTimeLossTerm_wait_mono P m w w' hacc hw hle)
    · apply Rat.cast_le.mpr
      apply walkawayLoss_snd_mono P _ _ hrev hltv hcf0
      exact sum_map_set_le _ ms i m _ hm
        (walkawayLossTerm_wait_mono P m w w' hwthr hppm hw hle)
  · -- arrival count: throughput+overtime up, idle down
    intro P ms cap i m a' hP hm ha
    obtain ⟨hrev, hltv, hval, hacc, hlab, hot, hwthr, hppm, hcf0⟩ := hP
    constructor
    · refine add_le_add ?_ ?_
      · apply throughputLoss_snd_mono P _ _ cap hrev hcf0
        intro c _
        exact sum_map_set_le _ ms i m _ hm (throughputLossTerm_arr_mono c m a' ha)
      · apply overtimeLoss_snd_mono P _ _ cap hlab hot hcf0
        intro c _
        exact sum_map_set_le _ ms i m _ hm (overtimeLossTerm_arr_mono c m a' ha)
    · apply idleLoss_snd_mono P _ _ cap hlab hcf0
      intro c _
      exact sum_map_set_ge _ ms i m _ hm (idleLossTerm_arr_anti c m a' ha)
  · -- arrival count with unchanged idle cost
    intro P now ms lr ent cap td i m a' hP hm ha hidle
    obtain ⟨hrev, hltv, hval, hacc, hlab, hot, hwthr, hppm, hcf0⟩ := hP
    have hne : ms ≠ [] := by
      intro h0
      rw [h0] at hm
      simp at hm
    have hne' : ms.set i { m with arrival_count := a' } ≠ [] := by
      intro h0
      rcases ms with _ | ⟨m0, rest⟩
      · exact hne rfl
      · cases i <;> simp [List.set] at h0
    rw [totalLoss_eq _ _ _ _ _ _ _ hne, totalLoss_eq _ _ _ _ _ _ _ hne']
    have hwait : waitTimeLoss P (ms.set i { m with arrival_count := a' }) =
        waitTimeLoss P ms := by
      unfold waitTimeLoss
      dsimp only
      rw [sum_map_set_eq (waitTimeLossTerm P) ms i m { m with arrival_count := a' } hm rfl]
    have hwalk : walkawayLoss P (ms.set i { m with arrival_count := a' }) =
        walkawayLoss P ms := by
      unfold walkawayLoss
      dsimp only
      rw [sum_map_set_eq (walkawayLossTerm P) ms i m { m with arrival_count := a' } hm rfl]
    rw [hwait, hwalk, hidle]
    refine add_le_add (add_le_add (add_le_add (add_le_add (le_refl _) ?_)
      (le_refl _)) (le_refl _)) ?_
    · apply Rat.cast_le.mpr
      apply throughputLoss_snd_mono P _ _ cap hrev hcf0
      intro c _
      exact sum_map_set_le _ ms i m _ hm (throughputLossTerm_arr_mono c m a' ha)
    · apply Rat.cast_le.mpr
      apply overtimeLoss_snd_mono P _ _ cap hlab hot hcf0
      intro c _
      exact sum_map_set_le _ ms i m _ hm (overtimeLossTerm_arr_mono c m a' ha)

/-- Witness for C6 (amended): default parameters (which satisfy the sign
conditions) on the concrete one-measurement batch, raising the conservative
factor, a wait time, and an arrival count. -/
theorem C6_amended_witness :
    defaultParams.Nonneg ∧
    (calcTotalLoss defaultParams 0 [m6 1801] none none (some cap6) none).total_loss ≤
      (calcTotalLoss { defaultParams with conservative_factor := 9 / 10 } 0 [m6 1801]
        none none (some cap6) none).total_loss ∧
    (calcTotalLoss defaultParams 0 [c6wm] none none none none).total_loss ≤
      (calcTotalLoss defaultParams 0 ([c6wm].set 0 { c6wm with avg_wait_time := some 400 })
        none none none none).total_loss ∧
    (idleLoss defaultParams ([m6 1801].set 0 { m6 1801 with arrival_count := 1802 })
        (some cap6)).2 ≤ (idleLoss defaultParams [m6 1801] (some cap6)).2 :=
  ⟨by with_unfolding_all decide,
    C6_amended.1 defaultParams (9 / 10) 0 [m6 1801] none none (some cap6) none
      (by with_unfolding_all decide) (by norm_num [defaultParams])
      (by intro m hm; rw [List.mem_singleton] at hm; rw [hm]; norm_num [m6]),
    C6_amended.2.1 defaultParams 0 [c6wm] none none none none 0 c6wm 350 400
      (by with_unfolding_all decide) rfl rfl (by norm_num),
    (C6_amended.2.2.1 defaultParams [m6 1801] (some cap6) 0 (m6 1801) 1802
      (by with_unfolding_all decide) rfl (by norm_num [m6])).2⟩

/-! ### C8: constant batches have zero variability -/

/-- Mean of a constant list is the constant. -/
theorem mean_replicate (n : ℕ) (v : ℚ) (hn : n ≠ 0) :
    mean (List.replicate n v) = v := by
  simp only [mean, List.sum_replicate, List.length_replicate, nsmul_eq_mul]
  field_simp

/-- Sample variance of a constant list is zero. -/
theorem sampleVar_replicate (n : ℕ) (v : ℚ) (hn : n ≠ 0) :
    sampleVar (List.replicate n v) = 0 := by
  simp only [sampleVar, mean_replicate n v hn, List.map_replicate, sub_self,
    ne_eq, OfNat.ofNat_ne_zero, not_false_eq_true, zero_pow, List.sum_replicate,
    smul_zero, zero_div]

/-- Coefficient of variation of a constant list is zero (either through the
short-data and non-positive-mean guards or through a zero standard
deviation). -/
theorem sampleCv_replicate (n : ℕ) (v : ℚ) :
    sampleCv (List.replicate n v) = 0 := by
  by_cases h2 : n < 2
  · simp only [sampleCv, List.length_replicate]
    rw [if_pos h2]
  have hn : n ≠ 0 := by omega
  simp only [sampleCv, List.length_replicate, sampleVar_replicate n v hn,
    mean_replicate n v hn]
  split_ifs <;> simp

/-- Folding `min` over a list of copies of the accumulator is the identity. -/
theorem foldl_min_const (l : List ℚ) (a : ℚ) (h : ∀ x ∈ l, x = a) :
    l.foldl min a = a := by
  induction l with
  | nil => rfl
  | cons x xs ih =>
    have hx : x = a := h x (List.mem_cons_self x xs)
    simp only [List.foldl_cons, hx, min_self]
    exact ih (fun y hy => h y (List.mem_cons_of_mem x hy))

/-- Folding `max` over a list of copies of the accumulator is the identity. -/
theorem foldl_max_const (l : List ℚ) (a : ℚ) (h : ∀ x ∈ l, x = a) :
    l.foldl max a = a := by
  induction l with
  | nil => rfl
  | cons x xs ih =>
    have hx : x = a := h x (List.mem_cons_self x xs)
    simp only [List.foldl_cons, hx, max_self]
    exact ih (fun y hy => h y (List.mem_cons_of_mem x hy))

/-- Minimum of a nonempty constant list. -/
theorem listMin_replicate (n : ℕ) (v : ℚ) (hn : n ≠ 0) :
    listMin (List.replicate n v) = v := by
  cases n with
  | zero => omega
  | succ m =>
    simp only [List.replicate_succ, listMin]
    exact foldl_min_const _ _ (fun x hx => List.eq_of_mem_replicate hx)

/-- Maximum of a nonempty constant list. -/
theorem listMax_replicate (n : ℕ) (v : ℚ) (hn : n ≠ 0) :
    listMax (List.replicate n v) = v := by
  cases n with
  | zero => omega
  | succ m =>
    simp only [List.replicate_succ, listMax]
    exact foldl_max_const _ _ (fun x hx => List.eq_of_mem_replicate hx)

/-- Counting a predicate over a constant list. -/
theorem countP_replicate (n : ℕ) (a : ℚ) (p : ℚ → Bool) :
    (List.replicate n a).countP p = if p a then n else 0 := by
  induction n with
  | zero => simp
  | succ m ih =>
    simp only [List.replicate_succ, List.countP_cons, ih]
    split_ifs with h <;> simp [h]

/-- Filtering a duplicate-free list by a predicate that holds exactly at one
of its elements yields that singleton. -/
theorem filter_unique {α : Type} (l : List α) (p : α → Bool) (a : α)
    (ha : a ∈ l) (hnd : l.Nodup) (hp : ∀ x ∈ l, (p x = true ↔ x = a)) :
    l.filter p = [a] := by
  induction l with
  | nil => cases ha
  | cons x xs ih =>
    rcases List.mem_cons.mp ha with hxa | haxs
    · have hpx : p x = true := (hp x (List.mem_cons_self x xs)).mpr hxa.symm
      rw [List.filter_cons_of_pos hpx]
      have hnil : xs.filter p = [] := by
        refine List.filter_eq_nil_iff.2 (fun y hy hpy => ?_)
        have hya : y = a := (hp y (List.mem_cons_of_mem x hy)).mp hpy
        rw [hya, hxa] at hy
        exact (List.nodup_cons.mp hnd).1 hy
      rw [hnil, ← hxa]
    · have hxa : x ≠ a := by
        rintro rfl
        exact (List.nodup_cons.mp hnd).1 haxs
      have hpx : p x = false := by
        rcases Bool.eq_false_or_eq_true (p x) with h | h
        · exact absurd ((hp x (List.mem_cons_self x xs)).mp h) hxa
        · exact h
      rw [List.filter_cons_of_neg (by simp [hpx])]
      exact ih haxs (List.nodup_cons.mp hnd).2
        (fun y hy => hp y (List.mem_cons_of_mem x hy))

/-- Over the degenerate histogram range `(v - 1/2, v + 1/2)` split into
`k ≥ 2` equal bins, the data point `v` falls in bin `j` exactly when `j` is
the middle bin `k / 2`. -/
theorem inBin_center_iff (v : ℚ) (k j : ℕ) (hk : 2 ≤ k) (hj : j < k) :
    (inBin (v - 1 / 2) (1 / (k : ℚ)) k j v = true) ↔ j = k / 2 := by
  have hk0 : (0 : ℚ) < (k : ℚ) := by exact_mod_cast (by omega : 0 < k)
  have hA : (binLo (v - 1 / 2) (1 / (k : ℚ)) j ≤ v) ↔ 2 * j ≤ k := by
    rw [binLo, one_div_mul_eq_div]
    constructor
    · intro h
      have h1 : (j : ℚ) / (k : ℚ) ≤ 1 / 2 := by linarith
      have h2 := (div_le_div_iff₀ hk0 (by norm_num : (0:ℚ) < 2)).mp h1
      have h3 : (j : ℚ) * 2 ≤ (k : ℚ) := by linarith
      exact_mod_cast by exact_mod_cast (by push_cast at h3 ⊢; linarith :
        ((2 * j : ℕ) : ℚ) ≤ (k : ℚ))
    · intro h
      have h3 : ((j : ℚ)) * 2 ≤ (k : ℚ) := by
        have h4 : ((2 * j : ℕ) : ℚ) ≤ (k : ℚ) := by exact_mod_cast h
        push_cast at h4
        linarith
      have h1 : (j : ℚ) / (k : ℚ) ≤ 1 / 2 :=
        (div_le_div_iff₀ hk0 (by norm_num)).mpr (by linarith)
      linarith
  by_cases hc : j + 1 = k
  · have hBtrue : (v ≤ binLo (v - 1 / 2) (1 / (k : ℚ)) k) := by
      rw [binLo, one_div_mul_eq_div, div_self (ne_of_gt hk0)]
      linarith
    rw [inBin, if_pos hc]
    simp only [Bool.and_eq_true, decide_eq_true_iff, hA, hBtrue, and_true]
    omega
  · have hC : (v < binLo (v - 1 / 2) (1 / (k : ℚ)) (j + 1)) ↔ k < 2 * (j + 1) := by
      rw [binLo, one_div_mul_eq_div]
      constructor
      · intro h
        have h1 : (1 : ℚ) / 2 < ((j + 1 : ℕ) : ℚ) / (k : ℚ) := by
          push_cast; push_cast at h; linarith
        have h2 := (div_lt_div_iff₀ (by norm_num : (0:ℚ) < 2) hk0).mp h1
        have h5 : (k : ℚ) < ((2 * (j + 1) : ℕ) : ℚ) := by push_cast; push_cast at h2; linarith
        exact_mod_cast h5
      · intro h
        have h2 : (k : ℚ) < ((2 * (j + 1) : ℕ) : ℚ) := by exact_mod_cast h
        push_cast at h2
        have h1 : (1 : ℚ) / 2 < ((j : ℚ) + 1) / (k : ℚ) :=
          (div_lt_div_iff₀ (by norm_num) hk0).mpr (by linarith)
        push_cast
        linarith
    rw [inBin, if_neg hc]
    simp only [Bool.and_eq_true, decide_eq_true_iff, hA, hC]
    omega

/-- The normalized entropy score of a constant list is zero: short lists hit
the guards, and otherwise all samples land in the single middle bin, the
positive-density list is a singleton, the normalized distribution is `[1]`,
and `1 * log2 1 = 0`. -/
theorem entropyScore_replicate (n : ℕ) (v : ℚ) :
    entropyScore (List.replicate n v) = 0 := by
  by_cases h2 : n < 2
  · simp only [entropyScore, List.length_replicate]
    rw [if_pos h2]
  by_cases h4 : n < 4
  · simp only [entropyScore, List.length_replicate]
    rw [if_neg h2, if_pos (by omega : min 10 (n / 2) < 2)]
  have hn0 : n ≠ 0 := by omega
  simp only [entropyScore, List.length_replicate]
  rw [if_neg h2, if_neg (by omega : ¬ min 10 (n / 2) < 2)]
  rw [listMin_replicate n v hn0, listMax_replicate n v hn0]
  rw [if_pos rfl, if_pos rfl]
  rw [show v + 1 / 2 - (v - 1 / 2) = (1 : ℚ) from by ring]
  set k := min 10 (n / 2) with hk
  have hk2 : 2 ≤ k := by omega
  have hkQ : (0 : ℚ) < (k : ℚ) := by exact_mod_cast (by omega : 0 < k)
  have hnQ : (0 : ℚ) < (n : ℚ) := by exact_mod_cast (by omega : 0 < n)
  have hwQ : (0 : ℚ) < (n : ℚ) * (1 / (k : ℚ)) := by positivity
  have hhist : histCounts (List.replicate n v) k (v - 1 / 2) (1 / (k : ℚ)) =
      (List.range k).map
        (fun j => if inBin (v - 1 / 2) (1 / (k : ℚ)) k j v then n else 0) := by
    simp only [histCounts, countP_replicate]
  have hbin : inBin (v - 1 / 2) (1 / (k : ℚ)) k (k / 2) v = true :=
    (inBin_center_iff v k (k / 2) hk2 (by omega)).mpr rfl
  have hpos : ((histCounts (List.replicate n v) k (v - 1 / 2) (1 / (k : ℚ))).map
      (fun cnt : ℕ => (cnt : ℚ) / ((n : ℚ) * (1 / (k : ℚ))))).filter
        (fun d => decide (0 < d)) =
      [(n : ℚ) / ((n : ℚ) * (1 / (k : ℚ)))] := by
    rw [hhist, List.map_map, List.filter_map]
    have hrange : (List.range k).filter
        ((fun d => decide (0 < d)) ∘ ((fun cnt : ℕ => (cnt : ℚ) / ((n : ℚ) * (1 / (k : ℚ)))) ∘
          (fun j => if inBin (v - 1 / 2) (1 / (k : ℚ)) k j v then n else 0))) = [k / 2] := by
      apply filter_unique
      · exact List.mem_range.mpr (by omega)
      · exact List.nodup_range k
      · intro j hj
        have hjk : j < k := List.mem_range.mp hj
        simp only [Function.comp_apply, decide_eq_true_iff]
        by_cases hb : inBin (v - 1 / 2) (1 / (k : ℚ)) k j v = true
        · rw [if_pos hb]
          exact iff_of_true (div_pos (by exact_mod_cast hnQ) hwQ)
            ((inBin_center_iff v k j hk2 hjk).mp hb)
        · rw [if_neg hb]
          refine iff_of_false (by simp) ?_
          intro hjhalf
          exact hb ((inBin_center_iff v k j hk2 hjk).mpr hjhalf)
    rw [hrange]
    simp only [List.map_cons, List.map_nil, Function.comp_apply]
    rw [if_pos hbin]
  rw [hpos]
  have hc0 : ((n : ℚ)) / ((n : ℚ) * (1 / (k : ℚ))) ≠ 0 :=
    ne_of_gt (div_pos hnQ hwQ)
  simp only [List.sum_cons, List.sum_nil, add_zero, List.map_cons, List.map_nil]
  rw [div_self hc0]
  simp only [List.map_cons, List.map_nil, Rat.cast_one, Real.logb_one, mul_zero,
    List.sum_cons, List.sum_nil, add_zero, neg_zero]
  split_ifs <;> simp

/-- C8: on every batch of at least the configured minimum number of
measurements whose `arrival_count` values are all equal, `calculate_entropy`
returns a measurement with `arrival_cv = 0` and `entropy_score = 0`. -/
theorem C8_constant_entropy (ec : EntropyCalculator) (ms : List FlowMeasurement)
    (loc : String) (a0 : ℕ)
    (hlen : ec.min_data_points ≤ ms.length)
    (hconst : ∀ m ∈ ms, m.arrival_count = a0) :
    (ec.calculate_entropy ms loc).map (fun e => (e.arrival_cv, e.entropy_score)) =
      some (0, 0) := by
  have harr : ms.map (fun m => (m.arrival_count : ℚ)) =
      List.replicate ms.length ((a0 : ℕ) : ℚ) := by
    refine List.eq_replicate_iff.2 ⟨by simp, ?_⟩
    intro b hb
    rcases List.mem_map.mp hb with ⟨m, hm, rfl⟩
    rw [hconst m hm]
  simp only [EntropyCalculator.calculate_entropy]
  rw [if_neg (by omega : ¬ ms.length < ec.min_data_points)]
  rw [harr, sampleCv_replicate, entropyScore_replicate]
  simp

/-- Witness for C8: ten measurements with `arrival_count = 4` produce zero
arrival variability and zero entropy score. -/
theorem C8_constant_entropy_witness :
    (({} : EntropyCalculator).calculate_entropy c8batch "lobby").map
      (fun e => (e.arrival_cv, e.entropy_score)) = some (0, 0) :=
  C8_constant_entropy {} c8batch "lobby" 4 (by with_unfolding_all decide)
    (fun m hm => by
      have h := List.eq_of_mem_replicate (hm : m ∈ List.replicate 10 c8m)
      rw [h]
      rfl)

end Picam

